import Mathlib

/-!
Shallow embedding of the chatgpt-rank-tracker backend core:
the job-batch state machine of the two dispatcher workers, the
submission API's batching and enqueue flow, the tracking-result
failure writes, and the enrichment engine's scorers.

Definitions mirror the JavaScript source; JS numbers are modelled as
`Nat`/`Int`/`Rat` (all arithmetic here stays far from 2^53, where JS
doubles are exact), JS `null`/`undefined` as `Option`, and each
Supabase write as a pure state update.
-/

/- ===================== DEFINITIONS ===================== -/

/-! ### Job-batch state machine

Mirrors the shard bookkeeping in the BrightData worker
(`src/worker.js`, subscription handler steps 5 and the catch block)
and `handleJobBatchFailure` in the DataForSEO worker, which is the
same logic as the catch block.  The handler reads
`{completed_batches, failed_batches, total_batches}`, skips the
increment when `completed + failed >= total`, otherwise increments and,
when the new sum reaches the total, writes the terminal status,
`completed_at` and (on failure) `error_message`. -/

inductive JobStatus where
  | pending
  | processing
  | completed
  | completed_with_errors
  | failed
  deriving DecidableEq, Repr

def JobStatus.isTerminal : JobStatus → Bool
  | .completed => true
  | .completed_with_errors => true
  | .failed => true
  | _ => false

structure JobBatch where
  completed_batches : Nat
  failed_batches : Nat
  total_batches : Nat
  status : JobStatus
  completed_at : Option Nat
  error_message : Option String
  deriving DecidableEq, Repr

/-- Shard-completion bookkeeping of the BrightData worker (step 5 of the
message handler): read counters, skip the increment when
`completed + failed >= total`, else `increment_completed_batches`; when
the new sum reaches the total write
`failed_batches > 0 ? completed_with_errors : completed` and stamp
`completed_at`.  `now` is the clock value used for the stamp. -/
def handleShardCompletion (now : Nat) (j : JobBatch) : JobBatch :=
  if j.completed_batches + j.failed_batches < j.total_batches then
    if j.total_batches ≤ j.completed_batches + j.failed_batches + 1 then
      { j with
        completed_batches := j.completed_batches + 1
        status := if 0 < j.failed_batches then .completed_with_errors else .completed
        completed_at := some now }
    else { j with completed_batches := j.completed_batches + 1 }
  else j

/-- Shard-failure bookkeeping of the worker catch block and of
`handleJobBatchFailure` in the DataForSEO worker: skip when
`failed + completed >= total`, else `increment_failed_batches`; when the
new sum reaches the total write
`completed_batches > 0 ? completed_with_errors : failed`, stamp
`completed_at` and record `error_message`. -/
def handleShardFailure (now : Nat) (reason : String) (j : JobBatch) : JobBatch :=
  if j.failed_batches + j.completed_batches < j.total_batches then
    if j.total_batches ≤ j.failed_batches + j.completed_batches + 1 then
      { j with
        failed_batches := j.failed_batches + 1
        status := if 0 < j.completed_batches then .completed_with_errors else .failed
        completed_at := some now
        error_message := some reason }
    else { j with failed_batches := j.failed_batches + 1 }
  else j

/-- One dispatcher-worker update to a job batch: a shard completion or a
shard failure, carrying the wall-clock value used for stamps. -/
inductive ShardEvent where
  | complete (now : Nat)
  | fail (now : Nat) (reason : String)
  deriving DecidableEq, Repr

def applyShardEvent (j : JobBatch) : ShardEvent → JobBatch
  | .complete now => handleShardCompletion now j
  | .fail now reason => handleShardFailure now reason j

def runShardEvents (j : JobBatch) (events : List ShardEvent) : JobBatch :=
  events.foldl applyShardEvent j

/-- A job batch as created by `POST /enqueue`: zero counters, status
`pending`, no completion stamp. -/
def initialJobBatch (total : Nat) : JobBatch :=
  { completed_batches := 0
    failed_batches := 0
    total_batches := total
    status := .pending
    completed_at := none
    error_message := none }

/-- The server transitions the batch to `processing` after the bulk
inserts; a worker may therefore also start from this state. -/
def processingJobBatch (total : Nat) : JobBatch :=
  { initialJobBatch total with status := .processing }

/-- The invariant the spec states for `JobBatch`:
the counters never exceed the total; a terminal status implies the
counters sum to the total, `completed_at` is stamped, and the terminal
value is determined by which counter is zero; `completed_at` is only
ever stamped together with a terminal status. -/
def JobBatchInv (j : JobBatch) : Prop :=
  j.completed_batches + j.failed_batches ≤ j.total_batches
  ∧ (j.status.isTerminal = true →
      j.completed_batches + j.failed_batches = j.total_batches
      ∧ j.completed_at.isSome = true
      ∧ j.status = (if j.failed_batches = 0 then .completed
                    else if j.completed_batches = 0 then .failed
                    else .completed_with_errors))
  ∧ (j.completed_at.isSome = true → j.status.isTerminal = true)

/-- Replay of one shard's completion message: the worker handler runs
once per delivery, with the clock value of that delivery. -/
def replayCompletions (j : JobBatch) (times : List Nat) : JobBatch :=
  times.foldl (fun s now => handleShardCompletion now s) j

/-- Replay of one shard's failure message. -/
def replayFailures (j : JobBatch) (reason : String) (times : List Nat) : JobBatch :=
  times.foldl (fun s now => handleShardFailure now reason s) j

/-! ### Submission API batching (`getBatchSize` / `chunkArray` /
`buildBulkData` in the server) -/

/-- Batch-size rule of the submission API: fewer than 5 prompts go in
one batch, 5 to 10 prompts use size 5, more than 10 use size 10. -/
def getBatchSize (count : Nat) : Nat :=
  if count < 5 then count
  else if count ≤ 10 then 5
  else 10

def chunkArrayAux {α : Type} (fuel : Nat) (l : List α) (n : Nat) : List (List α) :=
  match fuel with
  | 0 => []
  | fuel + 1 =>
    match l with
    | [] => []
    | _ => l.take n :: chunkArrayAux fuel (l.drop n) n

/-- The server's chunking helper: slices of length `n` taken from the
front (`for (i = 0; i < length; i += n) out.push(slice(i, i+n))`).
The JS loop never terminates for `n = 0`; the model is only meaningful
for `n ≥ 1`, which the callers guarantee. -/
def chunkArray {α : Type} (l : List α) (n : Nat) : List (List α) :=
  chunkArrayAux l.length l n

/-- Shard index `buildBulkData` assigns to the prompt at 0-based index
`i`: `Math.floor(index / batchSize)`. -/
def batchNumberOf (i batchSize : Nat) : Nat := i / batchSize

/-! ### `POST /enqueue` persistence flow

The handler inserts a `job_batches` row (status `pending`), then
bulk-inserts the prompt rows, then the tracking-result rows, then
updates the batch to `processing` and publishes the shards.  A failed
insert throws, and the route-level catch only logs and answers 500.
The model records which rows each table holds and lets either bulk
insert be forced to fail. -/

structure EnqueueJobRow where
  id : Nat
  total_prompts : Nat
  total_batches : Nat
  status : JobStatus
  deriving DecidableEq, Repr

structure EnqueueDb where
  job_batches : List EnqueueJobRow
  prompt_rows : Nat
  tracking_rows : Nat
  deriving DecidableEq, Repr

structure EnqueueOutcome where
  db : EnqueueDb
  httpStatus : Nat
  deriving DecidableEq, Repr

/-- The `POST /enqueue` handler from step 4 (create job batch) through
step 8 (mark processing), with the two bulk inserts' failure modes
exposed as booleans.  `n` is the validated prompt count (`≥ 1`). -/
def enqueueHandler (db : EnqueueDb) (newId n : Nat)
    (promptsInsertFails trackingInsertFails : Bool) : EnqueueOutcome :=
  let size := getBatchSize n
  let totalBatches := (n + size - 1) / size
  let row : EnqueueJobRow :=
    { id := newId, total_prompts := n, total_batches := totalBatches, status := .pending }
  let db1 : EnqueueDb := { db with job_batches := db.job_batches ++ [row] }
  if promptsInsertFails then
    { db := db1, httpStatus := 500 }
  else
    let db2 : EnqueueDb := { db1 with prompt_rows := db1.prompt_rows + n }
    if trackingInsertFails then
      { db := db2, httpStatus := 500 }
    else
      let db3 : EnqueueDb := { db2 with tracking_rows := db2.tracking_rows + n }
      let db4 : EnqueueDb :=
        { db3 with
          job_batches := db3.job_batches.map
            (fun r => if r.id = newId then { r with status := .processing } else r) }
      { db := db4, httpStatus := 200 }

/-! ### Tracking-result failure writes

`tracking_results` rows as touched by the failure paths: the DataForSEO
worker's `markTrackingResultsFailed` (and the identical first branch of
the BrightData worker's catch block) update every row of the shard by
`job_batch_id` and `batch_number`; the DataForSEO callback's failure
branch updates a single row by id after reading its current status. -/

inductive TrackStatus where
  | pending
  | processing
  | fulfilled
  | failed
  deriving DecidableEq, Repr

structure TrackingRow where
  id : Nat
  job_batch_id : Nat
  batch_number : Nat
  status : TrackStatus
  responseError : Option String
  timestamp : Nat
  is_present : Option Bool
  sentiment : Option Nat
  salience : Option Nat
  mention_count : Option Nat
  domain_mention_count : Option Nat
  user_id : Nat
  deriving DecidableEq, Repr

/-- `markTrackingResultsFailed(jobBatchId, batchNumber, errorMessage)`:
an unconditional `UPDATE tracking_results SET status = failed,
response = {error,...}` filtered only by `job_batch_id` and
`batch_number` — there is no status filter. -/
def markTrackingResultsFailed (jobBatchId batchNumber : Nat) (errorMessage : String)
    (rows : List TrackingRow) : List TrackingRow :=
  rows.map fun r =>
    if r.job_batch_id = jobBatchId ∧ r.batch_number = batchNumber then
      { r with status := .failed, responseError := some errorMessage }
    else r

/-- The failure branch of the DataForSEO callback handler for a regular
job: it first reads the row's current status and, when it is already
`fulfilled`, ignores the late failure and leaves the row alone;
otherwise it overwrites the row as failed with zeroed scores. -/
def callbackFailureUpdate (now userId : Nat) (errorMessage : String)
    (r : TrackingRow) : TrackingRow :=
  if r.status = .fulfilled then r
  else
    { r with
      status := .failed
      timestamp := now
      is_present := some false
      sentiment := some 0
      salience := some 0
      responseError := some errorMessage
      mention_count := some 0
      domain_mention_count := some 0
      user_id := userId }

/-! ### Brand matching and sentiment (`src/analysis.js`)

`normalizeText` maps curly quotes and backtick/acute accents to straight
quotes, decomposes accented letters (the JS source calls the built-in
`String.normalize('NFD')`; the model carries an explicit decomposition
table for the Latin-1 precomposed letters and is the identity on other
code points) and drops the combining marks U+0300–U+036F.
`countBrandMatches` builds for each brand the pattern
`new RegExp("\\b" + escapeRegExp(normalizeText(brand)) + "\\b", "gi")`
— a literal match of the normalized brand between word boundaries,
since `escapeRegExp` escapes every metacharacter — and counts its
non-overlapping case-insensitive occurrences. -/

def normalizeQuoteChar (c : Char) : Char :=
  if c.val = 0x2018 ∨ c.val = 0x2019 ∨ c.val = 0x201B
      ∨ c.val = 0x0060 ∨ c.val = 0x00B4 then
    Char.ofNat 39
  else if c.val = 0x201C ∨ c.val = 0x201D ∨ c.val = 0x201E then
    Char.ofNat 34
  else c

def nfdDecompose (c : Char) : List Char :=
  match c.val.toNat with
  | 0xC0 => ['A', Char.ofNat 0x300]
  | 0xC1 => ['A', Char.ofNat 0x301]
  | 0xC2 => ['A', Char.ofNat 0x302]
  | 0xC3 => ['A', Char.ofNat 0x303]
  | 0xC4 => ['A', Char.ofNat 0x308]
  | 0xC5 => ['A', Char.ofNat 0x30A]
  | 0xC7 => ['C', Char.ofNat 0x327]
  | 0xC8 => ['E', Char.ofNat 0x300]
  | 0xC9 => ['E', Char.ofNat 0x301]
  | 0xCA => ['E', Char.ofNat 0x302]
  | 0xCB => ['E', Char.ofNat 0x308]
  | 0xCC => ['I', Char.ofNat 0x300]
  | 0xCD => ['I', Char.ofNat 0x301]
  | 0xCE => ['I', Char.ofNat 0x302]
  | 0xCF => ['I', Char.ofNat 0x308]
  | 0xD1 => ['N', Char.ofNat 0x303]
  | 0xD2 => ['O', Char.ofNat 0x300]
  | 0xD3 => ['O', Char.ofNat 0x301]
  | 0xD4 => ['O', Char.ofNat 0x302]
  | 0xD5 => ['O', Char.ofNat 0x303]
  | 0xD6 => ['O', Char.ofNat 0x308]
  | 0xD9 => ['U', Char.ofNat 0x300]
  | 0xDA => ['U', Char.ofNat 0x301]
  | 0xDB => ['U', Char.ofNat 0x302]
  | 0xDC => ['U', Char.ofNat 0x308]
  | 0xDD => ['Y', Char.ofNat 0x301]
  | 0xE0 => ['a', Char.ofNat 0x300]
  | 0xE1 => ['a', Char.ofNat 0x301]
  | 0xE2 => ['a', Char.ofNat 0x302]
  | 0xE3 => ['a', Char.ofNat 0x303]
  | 0xE4 => ['a', Char.ofNat 0x308]
  | 0xE5 => ['a', Char.ofNat 0x30A]
  | 0xE7 => ['c', Char.ofNat 0x327]
  | 0xE8 => ['e', Char.ofNat 0x300]
  | 0xE9 => ['e', Char.ofNat 0x301]
  | 0xEA => ['e', Char.ofNat 0x302]
  | 0xEB => ['e', Char.ofNat 0x308]
  | 0xEC => ['i', Char.ofNat 0x300]
  | 0xED => ['i', Char.ofNat 0x301]
  | 0xEE => ['i', Char.ofNat 0x302]
  | 0xEF => ['i', Char.ofNat 0x308]
  | 0xF1 => ['n', Char.ofNat 0x303]
  | 0xF2 => ['o', Char.ofNat 0x300]
  | 0xF3 => ['o', Char.ofNat 0x301]
  | 0xF4 => ['o', Char.ofNat 0x302]
  | 0xF5 => ['o', Char.ofNat 0x303]
  | 0xF6 => ['o', Char.ofNat 0x308]
  | 0xF9 => ['u', Char.ofNat 0x300]
  | 0xFA => ['u', Char.ofNat 0x301]
  | 0xFB => ['u', Char.ofNat 0x302]
  | 0xFC => ['u', Char.ofNat 0x308]
  | 0xFD => ['y', Char.ofNat 0x301]
  | 0xFF => ['y', Char.ofNat 0x308]
  | _ => [c]

def isCombiningMark (c : Char) : Bool :=
  0x300 ≤ c.val.toNat && c.val.toNat ≤ 0x36F

/-- `normalizeText` of the analysis module: curly-quote normalization,
NFD decomposition, then removal of the combining marks U+0300–U+036F. -/
def normalizeText (s : String) : String :=
  ⟨(((s.data.map normalizeQuoteChar).bind nfdDecompose).filter
      (fun c => !isCombiningMark c))⟩

/-- `escapeRegExp`: backslash-escape every regex metacharacter, so the
escaped string matches itself literally inside a pattern. -/
def escapeRegExp (s : String) : String :=
  ⟨s.data.bind (fun c =>
    if c = '.' ∨ c = '*' ∨ c = '+' ∨ c = '?' ∨ c = '^' ∨ c = '$'
        ∨ c = Char.ofNat 123 ∨ c = Char.ofNat 125 ∨ c = '(' ∨ c = ')'
        ∨ c = '|' ∨ c = '[' ∨ c = ']' ∨ c = '\\' then ['\\', c]
    else [c])⟩

/-- The pattern built by `createBrandPattern` matches the normalized
brand literally (every metacharacter having been escaped by
`escapeRegExp`) between `\b` word boundaries; the model therefore keeps
the normalized brand itself as the pattern and lets `jsCountMatches`
supply the boundary/case-insensitivity semantics. -/
def createBrandPattern (brandName : String) : List Char :=
  (normalizeText brandName).data

/-- JS `\w` word characters: ASCII letters, digits and underscore. -/
def isWordChar (c : Char) : Bool :=
  c.isAlphanum || c = '_'

def isWordAt (t : List Char) (i : Nat) : Bool :=
  match t.get? i with
  | some c => isWordChar c
  | none => false

/-- JS `\b`: the word-ness of the text changes across position `i`
(positions outside the text count as non-word). -/
def boundaryAt (t : List Char) (i : Nat) : Bool :=
  (match i with
   | 0 => false
   | k + 1 => isWordAt t k) != isWordAt t i

/-- Case-insensitive literal match of `p` at position `i` of `t`
(simple case folding via `Char.toLower`, adequate for the `i` flag on
the alphabets this code handles). -/
def literalMatchAt (p t : List Char) (i : Nat) : Bool :=
  let seg := (t.drop i).take p.length
  seg.length = p.length && (seg.zip p).all (fun q => q.1.toLower = q.2.toLower)

def jsCountMatchesAux (p t : List Char) : Nat → Nat → Nat
  | 0, _ => 0
  | fuel + 1, pos =>
    if t.length < pos then 0
    else if boundaryAt t pos && literalMatchAt p t pos
        && boundaryAt t (pos + p.length) then
      1 + jsCountMatchesAux p t fuel (pos + max p.length 1)
    else jsCountMatchesAux p t fuel (pos + 1)

/-- Number of matches of `String.match` with a `gi` regex
`\b<literal p>\b`: scan left to right, non-overlapping, advancing one
position past a zero-length match (JS bumps `lastIndex` by one). -/
def jsCountMatches (p t : List Char) : Nat :=
  jsCountMatchesAux p t (t.length + 1) 0

/-- Dynamic JS values as they reach `countBrandMatches`: the brands
argument is sometimes a string, sometimes an array, sometimes missing
or of another type entirely. -/
inductive JsVal where
  | vstr (s : String)
  | varr (elems : List JsVal)
  | vnull
  | vnum (n : Int)
  | vbool (b : Bool)

structure BrandMatchResult where
  totalMatches : Nat
  matchesMap : List (String × Nat)
  anyMatch : Bool
  deriving DecidableEq, Repr

def emptyBrandResult : BrandMatchResult :=
  { totalMatches := 0, matchesMap := [], anyMatch := false }

/-- Assignment `matches[brand] = count` on a JS object modelled as an
insertion-ordered association list: overwrite an existing key, append a
new one. -/
def jsObjSet (m : List (String × Nat)) (k : String) (v : Nat) :
    List (String × Nat) :=
  if m.any (fun p => p.1 = k) then
    m.map (fun p => if p.1 = k then (k, v) else p)
  else m ++ [(k, v)]

/-- Body of the `brandsArray.forEach` loop: skip falsy or non-string
brands, count the pattern's matches in the normalized response, and
record the brand only when the count is positive. -/
def brandStep (normalizedResponse : String) (acc : BrandMatchResult)
    (brand : JsVal) : BrandMatchResult :=
  match brand with
  | JsVal.vstr b =>
    if b = "" then acc
    else
      if 0 < jsCountMatches (createBrandPattern b) normalizedResponse.data then
        { totalMatches := acc.totalMatches
            + jsCountMatches (createBrandPattern b) normalizedResponse.data
          matchesMap := jsObjSet acc.matchesMap b
            (jsCountMatches (createBrandPattern b) normalizedResponse.data)
          anyMatch := true }
      else acc
  | _ => acc

def brandMain (bs : List JsVal) (resp : String) : BrandMatchResult :=
  bs.foldl (brandStep (normalizeText resp)) emptyBrandResult

/-- `countBrandMatches(brands, response)`: returns the zero result for a
falsy or non-string response, a falsy brands argument, a brands
argument that is neither string nor array, or an empty brand array; a
single string behaves as a one-element array; otherwise the brands are
folded through `brandStep` over the normalized response. -/
def countBrandMatches (brands response : JsVal) : BrandMatchResult :=
  match response with
  | JsVal.vstr resp =>
    if resp = "" then emptyBrandResult
    else
      match brands with
      | JsVal.vstr b =>
        if b = "" then emptyBrandResult else brandMain [JsVal.vstr b] resp
      | JsVal.varr bs =>
        if bs.length = 0 then emptyBrandResult else brandMain bs resp
      | _ => emptyBrandResult
  | _ => emptyBrandResult

/-! ### `analyzeSentiment` -/

/-- The parameters of the one completion request `analyzeSentiment`
issues. -/
structure ChatRequest where
  temperature : Rat
  maxTokens : Nat
  deriving DecidableEq, Repr

def digitsToNat (ds : List Char) : Nat :=
  ds.foldl (fun a c => a * 10 + (c.toNat - 48)) 0

/-- `parseInt` on a digits-only string: `NaN` (`none`) when empty. -/
def jsParseIntDigits (s : String) : Option Nat :=
  match s.data with
  | [] => none
  | ds => some (digitsToNat ds)

/-- `reply.replace(/\D/g, "")`: delete every non-digit character. -/
def stripNonDigits (s : String) : String :=
  ⟨s.data.filter Char.isDigit⟩

/-- JS `String.prototype.trim`: drop leading and trailing whitespace
(structural implementation so that terms reduce in the kernel). -/
def jsTrim (s : String) : String :=
  ⟨((s.data.dropWhile Char.isWhitespace).reverse.dropWhile
      Char.isWhitespace).reverse⟩

/-- `completion.choices[0]?.message?.content || "50"`: a missing or
empty reply falls back to the string `"50"`. -/
def sentimentContent (llm : Option String) : String :=
  match llm with
  | none => "50"
  | some s => if s = "" then "50" else s

/-- `analyzeSentiment(response, brands, openai, model)` with the LLM
reply supplied as an oracle (`none` = no content in the completion).
Returns the request it issued (if any) together with the score:
`parseInt(content.replace(/\D/g, "")) || 50`, clamped by
`Math.min(100, Math.max(0, num))`. -/
def analyzeSentiment (response : String) (brands : List String)
    (llm : Option String) : Option ChatRequest × Nat :=
  if brands = [] ∨ jsTrim response = "" then (none, 0)
  else if (countBrandMatches (JsVal.varr (brands.map JsVal.vstr))
      (JsVal.vstr response)).anyMatch = false then (none, 0)
  else
    (some { temperature := 1/10, maxTokens := 3 },
     min 100 (max 0
       (match jsParseIntDigits (stripNonDigits (sentimentContent llm)) with
        | none => 50
        | some 0 => 50
        | some k => k)))

/-- Modelled from the claim's words, for comparison with the code:
parse the first integer in the reply, clamp it to `[0, 100]`, and
default to 50 exactly when no integer can be parsed. -/
def specSentimentScore (reply : String) : Nat :=
  match (reply.data.dropWhile (fun c => !c.isDigit)).takeWhile Char.isDigit with
  | [] => 50
  | ds => min 100 (digitsToNat ds)

/-! ### EnhancedAnalyzer (`src/utils/EnhancedAnalyzer.js`)

Input model for `(responseData, provider)`: the BrightData shape with
`links_attached`, `citations`, `answer_text_markdown`, `shopping`,
`is_map`, and the DataForSEO shape `tasks[0].result[0]` with `sources`,
`search_results`, `item_types`, `items`, `text`.  `new URL(u).hostname`
is modelled by `urlHostname` for absolute `scheme://` URLs (hostname up
to the first of `/ ? # :`, lowercased; parse failure is `none` and the
code skips such URLs).  Dates are millisecond instants (`Int`); the
90-day threshold uses fixed 86400000 ms days where the source subtracts
calendar days. -/

structure BDLink where
  url : Option String
  deriving DecidableEq, Repr

structure BDCitation where
  url : Option String
  deriving DecidableEq, Repr

structure BrightDataResponse where
  links_attached : Option (List BDLink)
  citations : Option (List BDCitation)
  answer_text_markdown : Option String
  shopping_visible : Bool
  shopping : Option Nat
  is_map : Bool
  deriving DecidableEq, Repr

structure DFSSource where
  url : Option String
  date_published : Option Int
  deriving DecidableEq, Repr

structure DFSSearchResult where
  url : Option String
  deriving DecidableEq, Repr

structure DFSItem where
  type : Option String
  deriving DecidableEq, Repr

structure DFSResult where
  sources : Option (List DFSSource)
  search_results : Option (List DFSSearchResult)
  item_types : Option (List String)
  items : Option (List DFSItem)
  text : Option String
  deriving DecidableEq, Repr

inductive AnalyzerInput where
  | brightdata (d : BrightDataResponse)
  | dataforseo (result : Option DFSResult)
  deriving DecidableEq, Repr

def splitSchemeAux : List Char → Option (List Char × List Char)
  | [] => none
  | ':' :: '/' :: '/' :: rest => some ([], rest)
  | c :: cs => (splitSchemeAux cs).map (fun p => (c :: p.1, p.2))

def schemeCharOk (c : Char) : Bool :=
  c.isAlphanum || c = '+' || c = '-' || c = '.'

/-- Model of `new URL(u).hostname` for `scheme://authority/...` URLs:
the authority up to the first `/`, `?`, `#` or `:`, lowercased; `none`
(the constructor throws) when there is no `scheme://` prefix or the
host is empty. -/
def urlHostname (u : String) : Option String :=
  match splitSchemeAux u.data with
  | none => none
  | some (scheme, rest) =>
    if scheme.isEmpty || !scheme.all schemeCharOk then none
    else
      match rest.takeWhile (fun c => !(c == '/' || c == '?' || c == '#' || c == ':')) with
      | [] => none
      | host => some ⟨host.map Char.toLower⟩

/-- `Set`-style insertion: add the element only if absent. -/
def addDistinct (l : List String) (s : String) : List String :=
  if l.contains s then l else l ++ [s]

def dedupList (l : List String) : List String :=
  l.foldl addDistinct []

def findNoNewline (target : Char) : List Char → Option Nat
  | [] => none
  | c :: cs =>
    if c = target then some 0
    else if c = '\n' then none
    else (findNoNewline target cs).map (fun n => n + 1)

/-- After seeing `![`, find the end of a lazy `.*?\]\(.*?\)` match: scan
for a `](` (growing the alt text, which cannot cross a newline) whose
following `.*?\)` also closes before a newline; return the offset just
past the closing `)`. -/
def imageMatchEnd : Nat → List Char → Nat → Option Nat
  | 0, _, _ => none
  | _ + 1, [], _ => none
  | fuel + 1, c :: cs, off =>
    if c = '\n' then none
    else if c = ']' then
      match cs with
      | '(' :: cs2 =>
        match findNoNewline ')' cs2 with
        | some k => some (off + 2 + k + 1)
        | none => imageMatchEnd fuel cs (off + 1)
      | _ => imageMatchEnd fuel cs (off + 1)
    else imageMatchEnd fuel cs (off + 1)

/-- Number of matches of `/!\[.*?\]\(.*?\)/g` in the markdown. -/
def countImageMatchesAux : Nat → List Char → Nat
  | 0, _ => 0
  | _ + 1, [] => 0
  | fuel + 1, c1 :: cs =>
    match c1, cs with
    | '!', '[' :: rest =>
      (match imageMatchEnd (rest.length + 1) rest 0 with
       | some e => 1 + countImageMatchesAux fuel (rest.drop e)
       | none => countImageMatchesAux fuel cs)
    | _, _ => countImageMatchesAux fuel cs

def countImageMatches (md : List Char) : Nat :=
  countImageMatchesAux (md.length + 1) md

def splitLines : List Char → List (List Char)
  | [] => [[]]
  | c :: cs =>
    match splitLines cs with
    | [] => [[c]]
    | l :: ls => if c = '\n' then [] :: l :: ls else (c :: l) :: ls

/-- Number of matches of `/\|.*\|/g`: with the greedy dot stopping at
newlines, exactly one match per newline-free segment containing at
least two pipes. -/
def countTableMatches (md : List Char) : Nat :=
  ((splitLines md).filter (fun seg => 2 ≤ (seg.filter (fun c => c = '|')).length)).length

def bdMarkdown (d : BrightDataResponse) : List Char :=
  (d.answer_text_markdown.getD "").data

def bdLinksLen (d : BrightDataResponse) : Nat :=
  (d.links_attached.getD []).length

/-- `detectItemTypesFromBrightData`, in source order: text, products,
images, table (`tableMatches.length > 2`), navigation list
(`links_attached.length > 3`), local businesses (`is_map`). -/
def detectItemTypesFromBrightData (d : BrightDataResponse) : List String :=
  (if 0 < (d.answer_text_markdown.getD "").length then ["chat_gpt_text"] else [])
  ++ (if d.shopping_visible && 0 < d.shopping.getD 0 then ["chat_gpt_products"] else [])
  ++ (if 0 < countImageMatches (bdMarkdown d) then ["chat_gpt_images"] else [])
  ++ (if 2 < countTableMatches (bdMarkdown d) then ["chat_gpt_table"] else [])
  ++ (if 3 < bdLinksLen d then ["chat_gpt_navigation_list"] else [])
  ++ (if d.is_map then ["chat_gpt_local_businesses"] else [])

/-- DataForSEO item types: `result.item_types || []` extended with the
types of `result.items` not already present (falsy types skipped). -/
def dfsItemTypes (r : DFSResult) : List String :=
  (r.items.getD []).foldl
    (fun acc it =>
      match it.type with
      | some ty => if ty = "" then acc else (if acc.contains ty then acc else acc ++ [ty])
      | none => acc)
    (r.item_types.getD [])

def lcpItemTypes : AnalyzerInput → List String
  | .brightdata d => detectItemTypesFromBrightData d
  | .dataforseo none => []
  | .dataforseo (some r) => dfsItemTypes r

/-- The distinct hostnames `calculateLCPScore` collects: for BrightData
from `links_attached` then `citations`, for DataForSEO from
`result.sources` then `result.search_results`; URLs that are falsy or
fail to parse are skipped. -/
def lcpHostnames : AnalyzerInput → List String
  | .brightdata d =>
    let fromLinks := (d.links_attached.getD []).foldl
      (fun acc link =>
        match link.url with
        | some u =>
          if u = "" then acc
          else match urlHostname u with
            | some h => addDistinct acc h
            | none => acc
        | none => acc) []
    (d.citations.getD []).foldl
      (fun acc cit =>
        match cit.url with
        | some u =>
          if u = "" then acc
          else match urlHostname u with
            | some h => addDistinct acc h
            | none => acc
        | none => acc) fromLinks
  | .dataforseo none => []
  | .dataforseo (some r) =>
    let fromSources := (r.sources.getD []).foldl
      (fun acc src =>
        match src.url with
        | some u =>
          if u = "" then acc
          else match urlHostname u with
            | some h => addDistinct acc h
            | none => acc
        | none => acc) []
    (r.search_results.getD []).foldl
      (fun acc item =>
        match item.url with
        | some u =>
          if u = "" then acc
          else match urlHostname u with
            | some h => addDistinct acc h
            | none => acc
        | none => acc) fromSources

/-- Publication dates of the `sources` the LCP scorer collects: the
BrightData branch pushes `{url, title, cited}` without a date, so those
entries are never fresh; the DataForSEO branch carries
`date_published`. -/
def lcpFreshSources : AnalyzerInput → List (Option Int)
  | .brightdata d =>
    ((d.citations.getD []).filter
      (fun cit => match cit.url with
        | some u => !(u = "") && (urlHostname u).isSome
        | none => false)).map (fun _ => none)
  | .dataforseo none => []
  | .dataforseo (some r) =>
    ((r.sources.getD []).filter
      (fun src => match src.url with
        | some u => !(u = "") && (urlHostname u).isSome
        | none => false)).map (fun src => src.date_published)

def msPerDay : Int := 86400000

/-- `hasFreshContent(sources, 90)`: some source has a parseable
publication date newer than `now` minus 90 days. -/
def hasFreshContent (dates : List (Option Int)) (now : Int) : Bool :=
  dates.any (fun d? =>
    match d? with
    | some d => decide (now - 90 * msPerDay < d)
    | none => false)

structure LcpResult where
  score : Nat
  distinctDomains : Nat
  itemTypes : List String
  deriving DecidableEq, Repr

/-- `calculateLCPScore`: 8 points per distinct hostname capped at 8
hostnames, +10 freshness, +10 for ≥ 2 distinct item types, +6 for a
navigation list, then `Math.max(0, Math.min(100, lcp))` (the max is a
no-op over `ℕ`). -/
def calculateLCPScore (now : Int) (input : AnalyzerInput) : LcpResult :=
  { score := min 100
      (min (lcpHostnames input).length 8 * 8
        + (if hasFreshContent (lcpFreshSources input) now then 10 else 0)
        + (if 2 ≤ (dedupList (lcpItemTypes input)).length then 10 else 0)
        + (if (lcpItemTypes input).contains "chat_gpt_navigation_list" then 6 else 0))
    distinctDomains := (lcpHostnames input).length
    itemTypes := lcpItemTypes input }

/-- Modelled from the claim's words, for comparison with the code: the
distinct-domain count after also stripping a leading `www.` from each
hostname. -/
def stripWww (h : String) : String :=
  if h.data.take 4 = ['w', 'w', 'w', '.'] then ⟨h.data.drop 4⟩ else h

def specDistinctDomainCount (input : AnalyzerInput) : Nat :=
  (dedupList ((lcpHostnames input).map stripWww)).length

/-! ### Intent classification (`calculateIntentClassification`) -/

def jsToLower (s : String) : String :=
  ⟨s.data.map Char.toLower⟩

def substrAt : List Char → List Char → Bool
  | [], _ => true
  | _ :: _, [] => false
  | a :: as, b :: bs => a == b && substrAt as bs

def containsSub : List Char → List Char → Bool
  | needle, [] => needle.isEmpty
  | needle, c :: cs => substrAt needle (c :: cs) || containsSub needle cs

/-- `countKeywordMatches`: the number of keywords occurring (as a
lowercase substring) in the lowercased content; 0 for empty content. -/
def countKeywordMatches (content : String) (keywords : List String) : Nat :=
  if content = "" then 0
  else (keywords.filter
    (fun k => containsSub (jsToLower k).data (jsToLower content).data)).length

def hasAnyIndicator (content : String) (inds : List String) : Bool :=
  inds.any (fun ind => containsSub ind.data (jsToLower content).data)

def hasCommercialTableContent (content : String) : Bool :=
  hasAnyIndicator content
    ["price", "cost", "$", "buy", "purchase", "rating", "review", "compare"]

def hasTransactionalContent (content : String) : Bool :=
  hasAnyIndicator content
    ["buy now", "add to cart", "purchase", "order now", "shop now", "checkout"]

def hasBookingContent (content : String) : Bool :=
  hasAnyIndicator content
    ["book now", "schedule", "appointment", "reservation", "book appointment", "call now"]

def commercialKeywords : List String :=
  ["compare", "review", "rating", "best", "top", "price", "cost", "features",
   "vs", "versus", "pros", "cons", "recommendation", "brand", "model"]

def localKeywords : List String :=
  ["near me", "nearby", "local", "address", "location", "directions", "hours",
   "map", "restaurant", "store", "business", "service area", "city", "town"]

def transactionalKeywords : List String :=
  ["buy", "purchase", "order", "booking", "reservation", "hire", "contact",
   "call", "quote", "estimate", "appointment", "schedule", "book now"]

def navigationalKeywords : List String :=
  ["website", "homepage", "official site", "main page", "portal", "directory",
   "login", "sign in", "dashboard", "menu", "navigation", "sitemap"]

def informationalKeywords : List String :=
  ["what", "why", "how", "when", "where", "definition", "meaning", "explain",
   "guide", "tutorial", "learn", "understand", "compare", "difference", "overview"]

def intentItemTypes : AnalyzerInput → List String
  | .brightdata d => detectItemTypesFromBrightData d
  | .dataforseo none => []
  | .dataforseo (some r) => dfsItemTypes r

def intentContent : AnalyzerInput → String
  | .brightdata d => d.answer_text_markdown.getD ""
  | .dataforseo none => ""
  | .dataforseo (some r) => r.text.getD ""

def intentSourcesLen : AnalyzerInput → Nat
  | .brightdata d => (d.citations.getD []).length
  | .dataforseo none => 0
  | .dataforseo (some r) => (r.sources.getD []).length

/-- The five category scores (`localScore` is the source's `local`). -/
structure IntentScores where
  informational : Nat
  commercial : Nat
  transactional : Nat
  localScore : Nat
  navigational : Nat
  deriving DecidableEq, Repr

def intentScores (input : AnalyzerInput) : IntentScores :=
  { commercial :=
      (if (intentItemTypes input).contains "chat_gpt_products" then 45 else 0)
      + (if (intentItemTypes input).contains "chat_gpt_table"
            && hasCommercialTableContent (intentContent input) then 25 else 0)
      + min (countKeywordMatches (intentContent input) commercialKeywords * 3) 25
    localScore :=
      (if (intentItemTypes input).contains "chat_gpt_local_businesses" then 50 else 0)
      + min (countKeywordMatches (intentContent input) localKeywords * 4) 30
    transactional :=
      (if (intentItemTypes input).contains "chat_gpt_products"
          && hasTransactionalContent (intentContent input) then 35 else 0)
      + (if (intentItemTypes input).contains "chat_gpt_local_businesses"
          && hasBookingContent (intentContent input) then 30 else 0)
      + min (countKeywordMatches (intentContent input) transactionalKeywords * 3) 25
    navigational :=
      (if (intentItemTypes input).contains "chat_gpt_navigation_list" then 35 else 0)
      + (if 5 < intentSourcesLen input then 20 else 0)
      + min (countKeywordMatches (intentContent input) navigationalKeywords * 4) 25
    informational := 20
      + (if (intentItemTypes input).contains "chat_gpt_text" then 25 else 0)
      + (if (intentItemTypes input).contains "chat_gpt_images" then 15 else 0)
      + (if (intentItemTypes input).contains "chat_gpt_table"
          && !hasCommercialTableContent (intentContent input) then 20 else 0)
      + min (countKeywordMatches (intentContent input) informationalKeywords * 2) 20 }

def maxScore (s : IntentScores) : Nat :=
  max s.informational (max s.commercial (max s.transactional
    (max s.localScore s.navigational)))

/-- The primary-intent selection: default `informational`, overridden by
the first of commercial, transactional, local, navigational whose score
equals the maximum. -/
def pickPrimary (s : IntentScores) : String :=
  if s.commercial = maxScore s then "commercial"
  else if s.transactional = maxScore s then "transactional"
  else if s.localScore = maxScore s then "local"
  else if s.navigational = maxScore s then "navigational"
  else "informational"

/-- `Object.values(scores)` in insertion order. -/
def scoresList (s : IntentScores) : List Nat :=
  [s.informational, s.commercial, s.transactional, s.localScore, s.navigational]

def sortDesc (l : List Nat) : List Nat :=
  l.insertionSort (· ≥ ·)

def natMaxList : List Nat → Nat
  | [] => 0
  | x :: l => max x (natMaxList l)

/-- `Math.round(num / den)` for the non-negative exact fractions that
occur here (JS rounds half up): `⌊num/den + 1/2⌋ = (2·num + den) / (2·den)`
over `ℕ`. -/
def jsRoundHalfUp (num den : Nat) : Nat :=
  (2 * num + den) / (2 * den)

/-- `sortedScores[0] > 0 ? Math.min(((top - second) / top) * 100, 100)
: 0`, then `Math.round`; the fraction `(top - second)·100 / top` (capped
by `min` with `100 = 100·top/top`) is carried exactly as a
numerator/denominator pair over `ℕ`. -/
def intentConfidence (s : IntentScores) : Nat :=
  if 0 < (sortDesc (scoresList s)).headD 0 then
    jsRoundHalfUp
      (min (((sortDesc (scoresList s)).headD 0
            - (sortDesc (scoresList s)).tail.headD 0) * 100)
        (100 * (sortDesc (scoresList s)).headD 0))
      ((sortDesc (scoresList s)).headD 0)
  else 0

structure IntentResult where
  primaryIntent : String
  confidence : Nat
  scores : IntentScores
  deriving DecidableEq, Repr

def calculateIntentClassification (input : AnalyzerInput) : IntentResult :=
  { primaryIntent := pickPrimary (intentScores input)
    confidence := intentConfidence (intentScores input)
    scores := intentScores input }

/-- Tie-break rank of the categories as the source's if-chain orders
them. -/
def categoryIndex (c : String) : Nat :=
  if c = "commercial" then 0
  else if c = "transactional" then 1
  else if c = "local" then 2
  else if c = "navigational" then 3
  else 4

def categoryOrder : List String :=
  ["commercial", "transactional", "local", "navigational", "informational"]

def scoreOf (s : IntentScores) (c : String) : Nat :=
  if c = "commercial" then s.commercial
  else if c = "transactional" then s.transactional
  else if c = "local" then s.localScore
  else if c = "navigational" then s.navigational
  else s.informational

/-- Modelled from the claim's words, for comparison with the code:
`⌊(top − second) / top × 100⌋` when the top score is positive, else 0
(`ℕ` division is exactly that floor). -/
def specConfidenceFloor (s : IntentScores) : Nat :=
  if 0 < natMaxList (scoresList s) then
    (natMaxList (scoresList s)
        - natMaxList ((scoresList s).erase (natMaxList (scoresList s)))) * 100
      / natMaxList (scoresList s)
  else 0

/-! ### `sanitizeText` (DataForSEO utils)

The fifteen-step markdown/HTML sanitizer, with the default options
`preserveLists = true` and `maxConsecutiveBlankLines = 1`.  Each
`String.replace` with a global regex becomes a left-to-right scan over
the character list; `\s` is modelled by `Char.isWhitespace` and the
dot's newline exclusion by explicit `'\n'` checks. -/

def backtickChar : Char := Char.ofNat 96

def isSpaceTab (c : Char) : Bool := c == ' ' || c == '\t'

def trimChars (l : List Char) : List Char :=
  ((l.dropWhile Char.isWhitespace).reverse.dropWhile Char.isWhitespace).reverse

def joinLines : List (List Char) → List Char
  | [] => []
  | [x] => x
  | x :: xs => x ++ '\n' :: joinLines xs

/-- Step 1: `s.replace(/\\n/g, "\n")` — literal backslash-n becomes a
newline. -/
def sanStep1 : List Char → List Char
  | [] => []
  | '\\' :: 'n' :: rest => '\n' :: sanStep1 rest
  | c :: cs => c :: sanStep1 cs

/-- Step 2: `[text](url)` → `text (url)`; the regex
`\[([^\]]+)\]\(([^)]+)\)` needs a non-empty bracket run up to the first
`]`, an immediate `(`, and a non-empty run up to the first `)`. -/
def sanStep2 : Nat → List Char → List Char
  | 0, l => l
  | _ + 1, [] => []
  | fuel + 1, c :: cs =>
    if c = '[' then
      let text := cs.takeWhile (fun x => !(x == ']'))
      if text.length = 0 ∨ text.length = cs.length then c :: sanStep2 fuel cs
      else
        match cs.drop (text.length + 1) with
        | '(' :: rest2 =>
          let url := rest2.takeWhile (fun x => !(x == ')'))
          if url.length = 0 ∨ url.length = rest2.length then c :: sanStep2 fuel cs
          else
            text ++ ' ' :: '(' :: (url ++ ')' :: sanStep2 fuel (rest2.drop (url.length + 1)))
        | _ => c :: sanStep2 fuel cs
    else c :: sanStep2 fuel cs

def findTripleBacktick : List Char → Option Nat
  | [] => none
  | c :: cs =>
    if (c :: cs).take 3 = [backtickChar, backtickChar, backtickChar] then some 0
    else (findTripleBacktick cs).map (fun n => n + 1)

def removeTripleBackticks : Nat → List Char → List Char
  | 0, l => l
  | _ + 1, [] => []
  | fuel + 1, c :: cs =>
    if (c :: cs).take 3 = [backtickChar, backtickChar, backtickChar] then
      removeTripleBackticks fuel (cs.drop 2)
    else c :: removeTripleBackticks fuel cs

/-- Step 3a: code fences `` ```…``` `` are replaced by the fenced text
with the backticks removed and the result trimmed. -/
def sanStep3a : Nat → List Char → List Char
  | 0, l => l
  | _ + 1, [] => []
  | fuel + 1, c :: cs =>
    if (c :: cs).take 3 = [backtickChar, backtickChar, backtickChar] then
      match findTripleBacktick (cs.drop 2) with
      | some j =>
        let matched := (c :: cs).take (3 + j + 3)
        trimChars (removeTripleBackticks (matched.length + 1) matched)
          ++ sanStep3a fuel ((cs.drop 2).drop (j + 3))
      | none => c :: sanStep3a fuel cs
    else c :: sanStep3a fuel cs

/-- Step 3b: inline code `` `x` `` keeps the inner text. -/
def sanStep3b : Nat → List Char → List Char
  | 0, l => l
  | _ + 1, [] => []
  | fuel + 1, c :: cs =>
    if c = backtickChar then
      let inner := cs.takeWhile (fun x => !(x == backtickChar))
      if inner.length = 0 ∨ inner.length = cs.length then c :: sanStep3b fuel cs
      else inner ++ sanStep3b fuel (cs.drop (inner.length + 1))
    else c :: sanStep3b fuel cs

/-- Step 4: strip `^[ \t]*#{1,6}[ \t]*` from each line (at most six
`#`; a longer run keeps its surplus). -/
def stripHeading (line : List Char) : List Char :=
  let ws := line.takeWhile isSpaceTab
  let rest := line.drop ws.length
  let hashes := rest.takeWhile (fun c => c == '#')
  if hashes.length = 0 then line
  else if hashes.length ≤ 6 then (rest.drop hashes.length).dropWhile isSpaceTab
  else rest.drop 6

def sanStep4 (l : List Char) : List Char :=
  joinLines ((splitLines l).map stripHeading)

def findEmphasisClose (d : Char) (n : Nat) : List Char → Option Nat
  | [] => none
  | c :: cs =>
    if (c :: cs).take n = List.replicate n d then some 0
    else if c = '\n' then none
    else (findEmphasisClose d n cs).map (fun k => k + 1)

/-- Backtracking of `(\*{1,3}|_{1,3})(.*?)\1` at one position: try the
longest opening run first; for each, the lazy middle (which cannot
cross a newline) ends at the earliest matching close. -/
def emphasisTry (d : Char) : Nat → List Char → Option (List Char × List Char)
  | 0, _ => none
  | n + 1, l =>
    match findEmphasisClose d (n + 1) (l.drop (n + 1)) with
    | some j => some ((l.drop (n + 1)).take j, (l.drop (n + 1)).drop (j + (n + 1)))
    | none => emphasisTry d n l

/-- Step 5: emphasis markers are dropped, keeping the inner text. -/
def sanStep5 : Nat → List Char → List Char
  | 0, l => l
  | _ + 1, [] => []
  | fuel + 1, c :: cs =>
    if c = '*' ∨ c = '_' then
      match emphasisTry c (min ((c :: cs).takeWhile (fun x => x == c)).length 3) (c :: cs) with
      | some (middle, rest) => middle ++ sanStep5 fuel rest
      | none => c :: sanStep5 fuel cs
    else c :: sanStep5 fuel cs

/-- Attempt `^[ \t]*\d+\.\s+` at a line start: returns the remainder
after the greedy whitespace run (which may cross newlines) and whether
that run ended with a newline. -/
def tryOrderedBullet (l : List Char) : Option (List Char × Bool) :=
  let ws := l.takeWhile isSpaceTab
  let r1 := l.drop ws.length
  let digits := r1.takeWhile Char.isDigit
  if digits.length = 0 then none
  else
    match r1.drop digits.length with
    | '.' :: r2 =>
      let wsAll := r2.takeWhile Char.isWhitespace
      if wsAll.length = 0 then none
      else some (r2.drop wsAll.length, wsAll.getLast? = some '\n')
    | _ => none

/-- Attempt `^[ \t]*[*•-]\s+` at a line start. -/
def tryUnorderedBullet (l : List Char) : Option (List Char × Bool) :=
  let ws := l.takeWhile isSpaceTab
  match l.drop ws.length with
  | c :: r2 =>
    if c = '*' ∨ c = Char.ofNat 0x2022 ∨ c = '-' then
      let wsAll := r2.takeWhile Char.isWhitespace
      if wsAll.length = 0 then none
      else some (r2.drop wsAll.length, wsAll.getLast? = some '\n')
    else none
  | [] => none

/-- Step 6 (with `preserveLists = true`): rewrite list markers at line
starts to `"- "`; `try` is the marker matcher for the current pass. -/
def sanStep6 (tryBullet : List Char → Option (List Char × Bool)) :
    Nat → Bool → List Char → List Char
  | 0, _, l => l
  | _ + 1, _, [] => []
  | fuel + 1, atStart, c :: cs =>
    if atStart then
      match tryBullet (c :: cs) with
      | some (rest, endNl) => '-' :: ' ' :: sanStep6 tryBullet fuel endNl rest
      | none => c :: sanStep6 tryBullet fuel (c = '\n') cs
    else c :: sanStep6 tryBullet fuel (c = '\n') cs

/-- The `[*#]{2,}(\s|$)` part of step 7, after the `(^|\s)` anchor. -/
def strayRun (l : List Char) : Option (List Char) :=
  let run := l.takeWhile (fun x => x == '*' || x == '#')
  if 2 ≤ run.length then
    match l.drop run.length with
    | [] => some []
    | r :: rs => if r.isWhitespace then some rs else none
  else none

/-- Step 7: `(^|\s)[*#]{2,}(\s|$)` → `" "` (no multiline flag: `^`/`$`
are the string ends). -/
def sanStep7 : Nat → Bool → List Char → List Char
  | 0, _, l => l
  | _ + 1, _, [] => []
  | fuel + 1, atStart, c :: cs =>
    if atStart then
      match strayRun (c :: cs) with
      | some rest => ' ' :: sanStep7 fuel false rest
      | none =>
        if c.isWhitespace then
          match strayRun cs with
          | some rest => ' ' :: sanStep7 fuel false rest
          | none => c :: sanStep7 fuel false cs
        else c :: sanStep7 fuel false cs
    else
      if c.isWhitespace then
        match strayRun cs with
        | some rest => ' ' :: sanStep7 fuel false rest
        | none => c :: sanStep7 fuel false cs
      else c :: sanStep7 fuel false cs

def isEscapable (c : Char) : Bool :=
  c == '\\' || c == backtickChar || c == '*' || c == '_'
    || c == Char.ofNat 123 || c == Char.ofNat 125 || c == '[' || c == ']'
    || c == '(' || c == ')' || c == '#' || c == '+' || c == '-' || c == '!'
    || c == '.' || c == Char.ofNat 34

/-- Step 8: drop the backslash of `\\<escapable>`. -/
def sanStep8 : List Char → List Char
  | [] => []
  | '\\' :: c :: cs => if isEscapable c then c :: sanStep8 cs else '\\' :: sanStep8 (c :: cs)
  | c :: cs => c :: sanStep8 cs

def tagAttempt (r : List Char) : Option (List Char) :=
  let inner := r.takeWhile (fun c => !(c == '>'))
  if inner.length = 0 then none
  else
    match r.drop inner.length with
    | '>' :: rs => some rs
    | _ => none

/-- Step 9: strip HTML tags `<\/?[^>]+>` (the optional slash is greedy
but backtracks). -/
def sanStep9 : Nat → List Char → List Char
  | 0, l => l
  | _ + 1, [] => []
  | fuel + 1, c :: cs =>
    if c = '<' then
      match cs with
      | '/' :: rs =>
        (match tagAttempt rs with
         | some out => sanStep9 fuel out
         | none =>
           match tagAttempt cs with
           | some out => sanStep9 fuel out
           | none => c :: sanStep9 fuel cs)
      | _ =>
        match tagAttempt cs with
        | some out => sanStep9 fuel out
        | none => c :: sanStep9 fuel cs
    else c :: sanStep9 fuel cs

def isEntityChar (c : Char) : Bool :=
  c.isAlpha || c.isDigit || c == '#'

def decodeEntity (inner : List Char) : Option Char :=
  if inner = ['a', 'm', 'p'] then some '&'
  else if inner = ['l', 't'] then some '<'
  else if inner = ['g', 't'] then some '>'
  else if inner = ['q', 'u', 'o', 't'] then some (Char.ofNat 34)
  else if inner = ['#', '3', '9'] then some (Char.ofNat 39)
  else if inner = ['n', 'b', 's', 'p'] then some ' '
  else none

/-- Step 10: decode the six supported named entities; any other
`&…;` token is left as it stands. -/
def sanStep10 : Nat → List Char → List Char
  | 0, l => l
  | _ + 1, [] => []
  | fuel + 1, c :: cs =>
    if c = '&' then
      let inner := cs.takeWhile isEntityChar
      if inner.length = 0 then c :: sanStep10 fuel cs
      else
        match cs.drop inner.length with
        | ';' :: rest =>
          (match decodeEntity inner with
           | some d => d :: sanStep10 fuel rest
           | none => c :: inner ++ ';' :: sanStep10 fuel rest)
        | _ => c :: sanStep10 fuel cs
    else c :: sanStep10 fuel cs

def isPunctSp (c : Char) : Bool :=
  c == '.' || c == '?' || c == '!' || c == ';' || c == ':'

/-- Step 11: `([.?!;:])([^\s\n])` → `"$1 $2"` — one left-to-right pass,
continuing after the two consumed characters. -/
def sanStep11 : List Char → List Char
  | [] => []
  | c :: cs =>
    if isPunctSp c then
      match cs with
      | [] => [c]
      | d :: ds =>
        if d.isWhitespace then c :: sanStep11 (d :: ds)
        else c :: ' ' :: d :: sanStep11 ds
    else c :: sanStep11 cs

/-- Step 12: collapse runs of two or more spaces/tabs to one space. -/
def sanStep12 : Nat → List Char → List Char
  | 0, l => l
  | _ + 1, [] => []
  | fuel + 1, c :: cs =>
    if isSpaceTab c then
      let run := (c :: cs).takeWhile isSpaceTab
      if 2 ≤ run.length then ' ' :: sanStep12 fuel ((c :: cs).drop run.length)
      else c :: sanStep12 fuel cs
    else c :: sanStep12 fuel cs

/-- Step 13 (default `maxConsecutiveBlankLines = 1`): collapse runs of
two or more newlines to a single newline. -/
def sanStep13 : Nat → List Char → List Char
  | 0, l => l
  | _ + 1, [] => []
  | fuel + 1, c :: cs =>
    if c = '\n' then
      let run := (c :: cs).takeWhile (fun x => x == '\n')
      if 2 ≤ run.length then '\n' :: sanStep13 fuel ((c :: cs).drop run.length)
      else c :: sanStep13 fuel cs
    else c :: sanStep13 fuel cs

/-- Step 14: trim every line. -/
def sanStep14 (l : List Char) : List Char :=
  joinLines ((splitLines l).map trimChars)

/-- `sanitizeText(input)` with the default options; a falsy input gives
`""` (non-string inputs are outside the model). -/
def sanitizeText (s : String) : String :=
  if s = "" then ""
  else
    let l1 := sanStep1 s.data
    let l2 := sanStep2 (l1.length + 1) l1
    let l3a := sanStep3a (l2.length + 1) l2
    let l3 := sanStep3b (l3a.length + 1) l3a
    let l4 := sanStep4 l3
    let l5 := sanStep5 (l4.length + 1) l4
    let l6a := sanStep6 tryOrderedBullet (l5.length + 1) true l5
    let l6 := sanStep6 tryUnorderedBullet (l6a.length + 1) true l6a
    let l7 := sanStep7 (l6.length + 1) true l6
    let l8 := sanStep8 l7
    let l9 := sanStep9 (l8.length + 1) l8
    let l10 := sanStep10 (l9.length + 1) l9
    let l11 := sanStep11 l10
    let l12 := sanStep12 (l11.length + 1) l11
    let l13 := sanStep13 (l12.length + 1) l12
    let l14 := sanStep14 l13
    ⟨trimChars l14⟩

/- ===================== THEOREMS ===================== -/

theorem handleShardCompletion_inv {j : JobBatch} (h : JobBatchInv j) (now : Nat) :
    JobBatchInv (handleShardCompletion now j) := by
  obtain ⟨c, f, t, st, ca, em⟩ := j
  obtain ⟨hle, hterm, hstamp⟩ := h
  dsimp only at hle hterm hstamp
  unfold handleShardCompletion JobBatchInv
  dsimp only
  split
  · rename_i hlt
    split
    · rename_i hge
      refine ⟨by dsimp only; omega, ?_, ?_⟩ <;> dsimp only
      · intro _
        refine ⟨by omega, rfl, ?_⟩
        by_cases hf : f = 0
        · simp [hf]
        · simp [hf, Nat.pos_of_ne_zero hf]
      · intro _
        split <;> rfl
    · rename_i hlt2
      refine ⟨by dsimp only; omega, ?_, ?_⟩ <;> dsimp only
      · intro habs
        exact absurd (hterm habs).1 (by omega)
      · exact hstamp
  · exact ⟨hle, hterm, hstamp⟩

theorem handleShardFailure_inv {j : JobBatch} (h : JobBatchInv j) (now : Nat)
    (reason : String) : JobBatchInv (handleShardFailure now reason j) := by
  obtain ⟨c, f, t, st, ca, em⟩ := j
  obtain ⟨hle, hterm, hstamp⟩ := h
  dsimp only at hle hterm hstamp
  unfold handleShardFailure JobBatchInv
  dsimp only
  split
  · rename_i hlt
    split
    · rename_i hge
      refine ⟨by dsimp only; omega, ?_, ?_⟩ <;> dsimp only
      · intro _
        refine ⟨by omega, rfl, ?_⟩
        have hfne : ¬ f + 1 = 0 := by omega
        by_cases hc : c = 0
        · simp [hc, hfne]
        · simp [hc, hfne, Nat.pos_of_ne_zero hc]
      · intro _
        split <;> rfl
    · rename_i hlt2
      refine ⟨by dsimp only; omega, ?_, ?_⟩ <;> dsimp only
      · intro habs
        exact absurd (hterm habs).1 (by omega)
      · exact hstamp
  · exact ⟨hle, hterm, hstamp⟩

theorem initialJobBatch_inv (total : Nat) : JobBatchInv (initialJobBatch total) := by
  refine ⟨by simp [initialJobBatch], ?_, ?_⟩
  · intro h
    simp [initialJobBatch, JobStatus.isTerminal] at h
  · intro h
    simp [initialJobBatch] at h

theorem runShardEvents_inv {j : JobBatch} (h : JobBatchInv j)
    (events : List ShardEvent) : JobBatchInv (runShardEvents j events) := by
  induction events generalizing j with
  | nil => exact h
  | cons e es ih =>
    cases e with
    | complete now =>
      exact ih (handleShardCompletion_inv h now)
    | fail now reason =>
      exact ih (handleShardFailure_inv h now reason)

/-- C1: starting from the freshly created batch, every sequence of
shard-completion and shard-failure worker updates keeps
`completed_batches + failed_batches ≤ total_batches`; whenever the
status is terminal the counters sum to the total, `completed_at` is
stamped, and the terminal value is `completed` when `failed_batches = 0`,
`failed` when `completed_batches = 0`, and `completed_with_errors`
otherwise; and `completed_at` is stamped only in a terminal status. -/
theorem jobBatch_invariant_holds (total : Nat) (events : List ShardEvent) :
    JobBatchInv (runShardEvents (initialJobBatch total) events) :=
  runShardEvents_inv (initialJobBatch_inv total) events

theorem jobBatch_invariant_holds_witness :
    JobBatchInv (runShardEvents (initialJobBatch 2)
      [ShardEvent.complete 5, ShardEvent.fail 7 "boom"]) :=
  jobBatch_invariant_holds 2 [ShardEvent.complete 5, ShardEvent.fail 7 "boom"]

theorem handleShardCompletion_skip {j : JobBatch}
    (h : j.total_batches ≤ j.completed_batches + j.failed_batches) (now : Nat) :
    handleShardCompletion now j = j := by
  unfold handleShardCompletion
  rw [if_neg (by omega)]

theorem handleShardFailure_skip {j : JobBatch}
    (h : j.total_batches ≤ j.completed_batches + j.failed_batches)
    (now : Nat) (reason : String) : handleShardFailure now reason j = j := by
  unfold handleShardFailure
  rw [if_neg (by omega)]

theorem handleShardCompletion_saturates {j : JobBatch}
    (h : j.total_batches ≤ j.completed_batches + j.failed_batches + 1) (now : Nat) :
    (handleShardCompletion now j).total_batches ≤
      (handleShardCompletion now j).completed_batches +
        (handleShardCompletion now j).failed_batches := by
  obtain ⟨c, f, t, st, ca, em⟩ := j
  dsimp only at h
  unfold handleShardCompletion
  dsimp only
  split
  · split <;> (dsimp only; omega)
  · dsimp only; omega

theorem handleShardFailure_saturates {j : JobBatch}
    (h : j.total_batches ≤ j.completed_batches + j.failed_batches + 1)
    (now : Nat) (reason : String) :
    (handleShardFailure now reason j).total_batches ≤
      (handleShardFailure now reason j).completed_batches +
        (handleShardFailure now reason j).failed_batches := by
  obtain ⟨c, f, t, st, ca, em⟩ := j
  dsimp only at h
  unfold handleShardFailure
  dsimp only
  split
  · split <;> (dsimp only; omega)
  · dsimp only; omega

theorem replayCompletions_saturated {j : JobBatch}
    (h : j.total_batches ≤ j.completed_batches + j.failed_batches)
    (ts : List Nat) : replayCompletions j ts = j := by
  induction ts with
  | nil => rfl
  | cons t ts ih =>
    show replayCompletions (handleShardCompletion t j) ts = j
    rw [handleShardCompletion_skip h]
    exact ih

theorem replayFailures_saturated {j : JobBatch} (reason : String)
    (h : j.total_batches ≤ j.completed_batches + j.failed_batches)
    (ts : List Nat) : replayFailures j reason ts = j := by
  induction ts with
  | nil => rfl
  | cons t ts ih =>
    show replayFailures (handleShardFailure t reason j) reason ts = j
    rw [handleShardFailure_skip h]
    exact ih

/-- C2 counterexample: with 2 shards outstanding, delivering the same
shard's completion message twice from the fresh state double-counts and
terminates the batch, while a single delivery leaves it at one
completed shard — the final `(completed, failed, status, completed_at)`
tuples differ, falsifying the replay claim as stated. -/
theorem replay_not_idempotent_counterexample :
    replayCompletions (initialJobBatch 2) [5, 6] ≠
      replayCompletions (initialJobBatch 2) [5] := by
  decide

/-- C2 amended: the sum-guard only protects a batch whose counters have
already reached (or, with the delivery in flight, are about to reach)
the total: whenever `total_batches ≤ completed + failed + 1` holds
before the first delivery, replaying the same shard's completion (or
failure) message any number of further times yields exactly the state
of a single delivery. -/
theorem replay_idempotent_once_saturated (j : JobBatch)
    (h : j.total_batches ≤ j.completed_batches + j.failed_batches + 1)
    (t : Nat) (ts : List Nat) (reason : String) :
    replayCompletions j (t :: ts) = handleShardCompletion t j
    ∧ replayFailures j reason (t :: ts) = handleShardFailure t reason j := by
  constructor
  · show replayCompletions (handleShardCompletion t j) ts = handleShardCompletion t j
    exact replayCompletions_saturated (handleShardCompletion_saturates h t) ts
  · show replayFailures (handleShardFailure t reason j) reason ts =
      handleShardFailure t reason j
    exact replayFailures_saturated reason (handleShardFailure_saturates h t reason) ts

theorem chunkArrayAux_congr {α : Type} {n : Nat} (hn : 1 ≤ n) :
    ∀ (f1 f2 : Nat) (l : List α), l.length ≤ f1 → l.length ≤ f2 →
      chunkArrayAux f1 l n = chunkArrayAux f2 l n := by
  intro f1
  induction f1 with
  | zero =>
    intro f2 l h1 h2
    cases l with
    | nil => cases f2 <;> rfl
    | cons a l' => simp at h1
  | succ f1 ih =>
    intro f2 l h1 h2
    cases l with
    | nil => cases f2 <;> rfl
    | cons a l' =>
      cases f2 with
      | zero => simp at h2
      | succ f2 =>
        show (a :: l').take n :: chunkArrayAux f1 ((a :: l').drop n) n
            = (a :: l').take n :: chunkArrayAux f2 ((a :: l').drop n) n
        have hd : ((a :: l').drop n).length = l'.length + 1 - n := by
          simp [List.length_drop]
        congr 1
        apply ih
        · rw [hd]; simp at h1; omega
        · rw [hd]; simp at h2; omega

theorem chunkArray_cons_eq {α : Type} {n : Nat} (hn : 1 ≤ n) (a : α) (l' : List α) :
    chunkArray (a :: l') n = (a :: l').take n :: chunkArray ((a :: l').drop n) n := by
  show chunkArrayAux (l'.length + 1) (a :: l') n = _
  show (a :: l').take n :: chunkArrayAux l'.length ((a :: l').drop n) n = _
  congr 1
  apply chunkArrayAux_congr hn
  · simp [List.length_drop]; omega
  · rfl

theorem chunkArray_length {α : Type} (n : Nat) (hn : 1 ≤ n) (l : List α) :
    (chunkArray l n).length = (l.length + n - 1) / n := by
  suffices H : ∀ (k : Nat) (l : List α), l.length = k →
      (chunkArray l n).length = (l.length + n - 1) / n from H l.length l rfl
  intro k
  induction k using Nat.strong_induction_on with
  | _ k ih =>
    intro l hk
    cases l with
    | nil =>
      show ([] : List (List α)).length = (0 + n - 1) / n
      have e1 : (n - 1) / n = 0 := Nat.div_eq_of_lt (by omega)
      simp [e1]
    | cons a l' =>
      simp only [List.length_cons] at hk
      rw [chunkArray_cons_eq hn]
      simp only [List.length_cons]
      have hd : ((a :: l').drop n).length = l'.length + 1 - n := by
        simp [List.length_drop]
      rw [ih ((a :: l').drop n).length (by omega) _ rfl, hd]
      rcases le_or_lt n (l'.length + 1) with h | h
      · have he : l'.length + 1 + n - 1 = (l'.length + 1 - n + n - 1) + n := by omega
        rw [he, Nat.add_div_right _ (by omega)]
      · have h0 : l'.length + 1 - n = 0 := by omega
        rw [h0]
        have e1 : (0 + n - 1) / n = 0 := Nat.div_eq_of_lt (by omega)
        have e2 : (l'.length + 1 + n - 1) / n = 1 :=
          Nat.div_eq_of_lt_le (by omega) (by omega)
        omega

theorem chunkArray_get? {α : Type} {n : Nat} (hn : 1 ≤ n) :
    ∀ (j : Nat) (l : List α), j * n < l.length →
      (chunkArray l n).get? j = some ((l.drop (j * n)).take n) := by
  intro j
  induction j with
  | zero =>
    intro l hj
    cases l with
    | nil => simp at hj
    | cons a l' =>
      rw [chunkArray_cons_eq hn]
      simp
  | succ j ih =>
    intro l hj
    cases l with
    | nil => simp at hj
    | cons a l' =>
      rw [chunkArray_cons_eq hn]
      simp only [List.get?_cons_succ]
      have hexp : (j + 1) * n = j * n + n := by ring
      rw [ih ((a :: l').drop n) (by
        have hd : ((a :: l').drop n).length = l'.length + 1 - n := by
          simp [List.length_drop]
        rw [hd]
        simp only [List.length_cons] at hj
        rw [hexp] at hj
        omega)]
      rw [List.drop_drop, hexp, Nat.add_comm n (j * n)]

theorem replay_idempotent_once_saturated_witness :
    replayCompletions { processingJobBatch 2 with completed_batches := 1 } [5, 6, 7] =
      handleShardCompletion 5 { processingJobBatch 2 with completed_batches := 1 } :=
  (replay_idempotent_once_saturated
    { processingJobBatch 2 with completed_batches := 1 } (by decide) 5 [6, 7] "x").1

theorem getBatchSize_pos {N : Nat} (h : 1 ≤ N) : 1 ≤ getBatchSize N := by
  unfold getBatchSize
  split_ifs <;> omega

/-- C4: for `N ≥ 1` prompts the submission API picks batch size `N` when
`N < 5`, `5` when `5 ≤ N ≤ 10` and `10` when `N > 10`; the number of
chunks equals `⌈N / s⌉` (written `(N + s - 1) / s` over `ℕ`); the prompt
at 0-based index `i` is assigned batch number `⌊i / s⌋` and sits at
offset `i % s` of exactly that chunk; and the boundary cases come out as
`N = 10 → two chunks of 5`, `N = 11 → chunks of 10 and 1`,
`N = 20 → two chunks of 10`. -/
theorem batching_rule_correct (N : Nat) (h : 1 ≤ N) :
    (N < 5 → getBatchSize N = N)
    ∧ (5 ≤ N → N ≤ 10 → getBatchSize N = 5)
    ∧ (10 < N → getBatchSize N = 10)
    ∧ (chunkArray (List.range N) (getBatchSize N)).length
        = (N + getBatchSize N - 1) / getBatchSize N
    ∧ (∀ i, i < N → batchNumberOf i (getBatchSize N) = i / getBatchSize N
        ∧ ∃ c, (chunkArray (List.range N) (getBatchSize N)).get? (i / getBatchSize N)
                = some c
            ∧ c.get? (i % getBatchSize N) = some i)
    ∧ (chunkArray (List.range 10) (getBatchSize 10)).map List.length = [5, 5]
    ∧ (chunkArray (List.range 11) (getBatchSize 11)).map List.length = [10, 1]
    ∧ (chunkArray (List.range 20) (getBatchSize 20)).map List.length = [10, 10] := by
  have hs : 1 ≤ getBatchSize N := getBatchSize_pos h
  refine ⟨?_, ?_, ?_, ?_, ?_, ?_, ?_, ?_⟩
  · intro h5
    simp [getBatchSize, h5]
  · intro h5 h10
    have hn5 : ¬ N < 5 := by omega
    simp [getBatchSize, hn5, h10]
  · intro h10
    have hn5 : ¬ N < 5 := by omega
    have hn10 : ¬ N ≤ 10 := by omega
    simp [getBatchSize, hn5, hn10]
  · have := chunkArray_length (getBatchSize N) hs (List.range N)
    simpa using this
  · intro i hi
    refine ⟨rfl, ?_⟩
    have hj : (i / getBatchSize N) * getBatchSize N ≤ i := Nat.div_mul_le_self i _
    refine ⟨((List.range N).drop ((i / getBatchSize N) * getBatchSize N)).take
      (getBatchSize N), ?_, ?_⟩
    · exact chunkArray_get? hs (i / getBatchSize N) (List.range N)
        (by rw [List.length_range]; omega)
    · rw [List.get?_take (Nat.mod_lt _ (by omega)), List.get?_drop]
      have hid : i / getBatchSize N * getBatchSize N + i % getBatchSize N = i := by
        rw [Nat.mul_comm]
        exact Nat.div_add_mod i (getBatchSize N)
      rw [hid]
      exact List.get?_range hi
  · decide
  · decide
  · decide

theorem batching_rule_correct_witness :
    (chunkArray (List.range 10) (getBatchSize 10)).map List.length = [5, 5] :=
  (batching_rule_correct 10 (by decide)).2.2.2.2.2.1

/-- C5 counterexample: run `POST /enqueue` on an empty store with the
prompts bulk insert failing; the handler answers 500 but the
`job_batches` row it inserted is still there, while the claim says no
JobBatch row remains after the failed request. -/
theorem enqueue_rollback_counterexample :
    (enqueueHandler ⟨[], 0, 0⟩ 1 3 true false).httpStatus = 500
    ∧ (enqueueHandler ⟨[], 0, 0⟩ 1 3 true false).db.job_batches ≠ [] := by
  decide

/-- C5 amended: the batch insert and the two bulk inserts are three
independent store calls with no surrounding transaction; when the
prompts insert or the tracking-results insert fails, the handler
answers 500 and the freshly inserted JobBatch row remains in the store,
still in status `pending`. -/
theorem enqueue_no_rollback (db : EnqueueDb) (newId n : Nat) (pf tf : Bool)
    (hfail : pf = true ∨ tf = true) :
    (enqueueHandler db newId n pf tf).httpStatus = 500
    ∧ (enqueueHandler db newId n pf tf).db.job_batches
        = db.job_batches ++
          [{ id := newId, total_prompts := n,
             total_batches := (n + getBatchSize n - 1) / getBatchSize n,
             status := .pending }] := by
  rcases hfail with hf | hf
  · subst hf
    simp [enqueueHandler]
  · subst hf
    cases pf <;> simp [enqueueHandler]

theorem enqueue_no_rollback_witness :
    (enqueueHandler ⟨[], 0, 0⟩ 7 5 false true).httpStatus = 500
    ∧ (enqueueHandler ⟨[], 0, 0⟩ 7 5 false true).db.job_batches
        = ([] : List EnqueueJobRow) ++
          [{ id := 7, total_prompts := 5,
             total_batches := (5 + getBatchSize 5 - 1) / getBatchSize 5,
             status := .pending }] :=
  enqueue_no_rollback ⟨[], 0, 0⟩ 7 5 false true (Or.inr rfl)

/-- C3 counterexample: a `fulfilled` row of shard `(1, 0)` is flipped to
`failed` by the worker's shard-level failure write
(`markTrackingResultsFailed`), which filters only by `job_batch_id` and
`batch_number`; the claim that a fulfilled row survives every
subsequent failure write is therefore false. -/
theorem shard_failure_overwrites_fulfilled_counterexample :
    (markTrackingResultsFailed 1 0 "err"
      [{ id := 1, job_batch_id := 1, batch_number := 0, status := .fulfilled,
         responseError := none, timestamp := 100, is_present := some true,
         sentiment := some 70, salience := some 60, mention_count := some 2,
         domain_mention_count := some 0, user_id := 9 }]).map
      (fun r => r.status) = [TrackStatus.failed] := by
  decide

/-- C3 amended: the late-failure guard holds for the DataForSEO callback
path — once a TrackingResult is `fulfilled`, the callback's failure
branch reads the current status and leaves the row completely
unchanged; the workers' shard-level failure writes, filtering only by
`(job_batch_id, batch_number)`, are not guarded this way (see the
counterexample). -/
theorem late_failure_callback_guard (r : TrackingRow) (now userId : Nat)
    (msg : String) (h : r.status = .fulfilled) :
    callbackFailureUpdate now userId msg r = r := by
  unfold callbackFailureUpdate
  rw [if_pos h]

theorem late_failure_callback_guard_witness :
    callbackFailureUpdate 200 9 "late failure"
      { id := 1, job_batch_id := 1, batch_number := 0, status := .fulfilled,
        responseError := none, timestamp := 100, is_present := some true,
        sentiment := some 70, salience := some 60, mention_count := some 2,
        domain_mention_count := some 0, user_id := 9 }
      = { id := 1, job_batch_id := 1, batch_number := 0, status := .fulfilled,
          responseError := none, timestamp := 100, is_present := some true,
          sentiment := some 70, salience := some 60, mention_count := some 2,
          domain_mention_count := some 0, user_id := 9 } :=
  late_failure_callback_guard _ 200 9 "late failure" rfl

theorem jsObjSet_mem (m : List (String × Nat)) (k : String) (v : Nat)
    (b : String) (c : Nat) :
    ((b, c) ∈ jsObjSet m k v) ↔ (if b = k then c = v else (b, c) ∈ m) := by
  unfold jsObjSet
  by_cases hany : m.any (fun p => p.1 = k)
  · rw [if_pos hany]
    by_cases hbk : b = k
    · rw [if_pos hbk]
      constructor
      · intro hmem
        rcases List.mem_map.mp hmem with ⟨p, hp, heq⟩
        by_cases hpk : p.1 = k
        · rw [if_pos hpk] at heq
          cases heq
          rfl
        · rw [if_neg hpk] at heq
          exact absurd (by rw [heq]; exact hbk) hpk
      · intro hcv
        rcases List.any_eq_true.mp hany with ⟨p, hp, hpk⟩
        have hpk' : p.1 = k := by simpa using hpk
        refine List.mem_map.mpr ⟨p, hp, ?_⟩
        rw [if_pos hpk', hcv, hbk]
    · rw [if_neg hbk]
      constructor
      · intro hmem
        rcases List.mem_map.mp hmem with ⟨p, hp, heq⟩
        by_cases hpk : p.1 = k
        · rw [if_pos hpk] at heq
          cases heq
          exact absurd rfl hbk
        · rw [if_neg hpk] at heq
          rw [← heq]
          exact hp
      · intro hm
        exact List.mem_map.mpr ⟨(b, c), hm, by rw [if_neg (by simpa using hbk)]⟩
  · rw [if_neg hany]
    have hnone : ∀ p ∈ m, ¬ p.1 = k := by
      intro p hp hpk
      exact hany (List.any_eq_true.mpr ⟨p, hp, by simpa using hpk⟩)
    by_cases hbk : b = k
    · rw [if_pos hbk]
      simp only [List.mem_append, List.mem_singleton, Prod.mk.injEq]
      constructor
      · rintro (hm | ⟨_, hcv⟩)
        · exact absurd hbk (hnone _ hm)
        · exact hcv
      · intro hcv
        exact Or.inr ⟨hbk, hcv⟩
    · rw [if_neg hbk]
      simp only [List.mem_append, List.mem_singleton, Prod.mk.injEq]
      constructor
      · rintro (hm | ⟨hbk', _⟩)
        · exact hm
        · exact absurd hbk' hbk
      · intro hm
        exact Or.inl hm

theorem brandFold_any_iff (norm : String) :
    ∀ (bs : List JsVal) (acc : BrandMatchResult),
      (acc.anyMatch = true ↔ 1 ≤ acc.totalMatches) →
      ((bs.foldl (brandStep norm) acc).anyMatch = true
        ↔ 1 ≤ (bs.foldl (brandStep norm) acc).totalMatches) := by
  intro bs
  induction bs with
  | nil => exact fun acc h => h
  | cons hd tl ih =>
    intro acc h
    apply ih
    cases hd with
    | vstr b =>
      by_cases hb : b = ""
      · simpa [brandStep, hb] using h
      · by_cases hc : 0 < jsCountMatches (createBrandPattern b) norm.data
        · simp only [brandStep, if_neg hb, if_pos hc]
          constructor
          · intro _; omega
          · intro _; trivial
        · simpa [brandStep, hb, hc] using h
    | varr l => simpa [brandStep] using h
    | vnull => simpa [brandStep] using h
    | vnum n => simpa [brandStep] using h
    | vbool bb => simpa [brandStep] using h

theorem brandFold_mem (norm : String) :
    ∀ (bs : List JsVal) (acc : BrandMatchResult) (Q : String → Nat → Prop),
      (∀ b c, ((b, c) ∈ acc.matchesMap) ↔ Q b c) →
      (∀ b c, Q b c → c = jsCountMatches (createBrandPattern b) norm.data) →
      ∀ b c, ((b, c) ∈ (bs.foldl (brandStep norm) acc).matchesMap
        ↔ (Q b c ∨ (JsVal.vstr b ∈ bs ∧ b ≠ ""
            ∧ c = jsCountMatches (createBrandPattern b) norm.data ∧ 1 ≤ c))) := by
  intro bs
  induction bs with
  | nil =>
    intro acc Q hQ hQv b c
    simpa using hQ b c
  | cons hd tl ih =>
    intro acc Q hQ hQv b c
    show ((b, c) ∈ (tl.foldl (brandStep norm) (brandStep norm acc hd)).matchesMap ↔ _)
    cases hd with
    | vstr b0 =>
      by_cases hb0 : b0 = ""
      · subst hb0
        rw [show brandStep norm acc (JsVal.vstr "") = acc from by simp [brandStep]]
        rw [ih acc Q hQ hQv b c]
        simp only [List.mem_cons, JsVal.vstr.injEq]
        constructor
        · rintro (hq | ⟨hm, hne, hcv, hpos⟩)
          · exact Or.inl hq
          · exact Or.inr ⟨Or.inr hm, hne, hcv, hpos⟩
        · rintro (hq | ⟨hm | hm, hne, hcv, hpos⟩)
          · exact Or.inl hq
          · exact absurd hm hne
          · exact Or.inr ⟨hm, hne, hcv, hpos⟩
      · by_cases hcnt : 0 < jsCountMatches (createBrandPattern b0) norm.data
        · have hstep : brandStep norm acc (JsVal.vstr b0)
              = { totalMatches := acc.totalMatches
                    + jsCountMatches (createBrandPattern b0) norm.data
                  matchesMap := jsObjSet acc.matchesMap b0
                    (jsCountMatches (createBrandPattern b0) norm.data)
                  anyMatch := true } := by
            simp [brandStep, hb0, hcnt]
          rw [hstep]
          rw [ih _ (fun b c => if b = b0
              then c = jsCountMatches (createBrandPattern b0) norm.data
              else Q b c)
            (by
              intro b c
              exact jsObjSet_mem acc.matchesMap b0 _ b c |>.trans (by
                by_cases hbb : b = b0
                · simp [hbb]
                · simp only [if_neg hbb]
                  exact hQ b c))
            (by
              intro b c hq
              by_cases hbb : b = b0
              · rw [hbb]
                simpa [hbb] using hq
              · exact hQv b c (by simpa [hbb] using hq))
            b c]
          simp only [List.mem_cons, JsVal.vstr.injEq]
          by_cases hbb : b = b0
          · subst hbb
            simp only [if_pos rfl]
            constructor
            · rintro (hcv | ⟨_, _, hcv, _⟩)
              · exact Or.inr ⟨Or.inl (by trivial), hb0, hcv, by rw [hcv]; omega⟩
              · exact Or.inr ⟨Or.inl (by trivial), hb0, hcv, by rw [hcv]; omega⟩
            · rintro (hq | ⟨_, _, hcv, _⟩)
              · exact Or.inl (hQv _ _ hq)
              · exact Or.inl hcv
          · simp only [if_neg hbb]
            constructor
            · rintro (hq | ⟨hm, hne, hcv, hpos⟩)
              · exact Or.inl hq
              · exact Or.inr ⟨Or.inr hm, hne, hcv, hpos⟩
            · rintro (hq | ⟨hm | hm, hne, hcv, hpos⟩)
              · exact Or.inl hq
              · exact absurd hm hbb
              · exact Or.inr ⟨hm, hne, hcv, hpos⟩
        · rw [show brandStep norm acc (JsVal.vstr b0) = acc from by
            simp [brandStep, hb0, hcnt]]
          rw [ih acc Q hQ hQv b c]
          simp only [List.mem_cons, JsVal.vstr.injEq]
          constructor
          · rintro (hq | ⟨hm, hne, hcv, hpos⟩)
            · exact Or.inl hq
            · exact Or.inr ⟨Or.inr hm, hne, hcv, hpos⟩
          · rintro (hq | ⟨hm | hm, hne, hcv, hpos⟩)
            · exact Or.inl hq
            · exfalso
              rw [hm] at hcv
              omega
            · exact Or.inr ⟨hm, hne, hcv, hpos⟩
    | varr l =>
      rw [show brandStep norm acc (JsVal.varr l) = acc from rfl]
      rw [ih acc Q hQ hQv b c]
      simp only [List.mem_cons]
      constructor
      · rintro (hq | ⟨hm, hne, hcv, hpos⟩)
        · exact Or.inl hq
        · exact Or.inr ⟨Or.inr hm, hne, hcv, hpos⟩
      · rintro (hq | ⟨hm | hm, hne, hcv, hpos⟩)
        · exact Or.inl hq
        · exact absurd hm (by simp)
        · exact Or.inr ⟨hm, hne, hcv, hpos⟩
    | vnull =>
      rw [show brandStep norm acc JsVal.vnull = acc from rfl]
      rw [ih acc Q hQ hQv b c]
      simp only [List.mem_cons]
      constructor
      · rintro (hq | ⟨hm, hne, hcv, hpos⟩)
        · exact Or.inl hq
        · exact Or.inr ⟨Or.inr hm, hne, hcv, hpos⟩
      · rintro (hq | ⟨hm | hm, hne, hcv, hpos⟩)
        · exact Or.inl hq
        · exact absurd hm (by simp)
        · exact Or.inr ⟨hm, hne, hcv, hpos⟩
    | vnum n =>
      rw [show brandStep norm acc (JsVal.vnum n) = acc from rfl]
      rw [ih acc Q hQ hQv b c]
      simp only [List.mem_cons]
      constructor
      · rintro (hq | ⟨hm, hne, hcv, hpos⟩)
        · exact Or.inl hq
        · exact Or.inr ⟨Or.inr hm, hne, hcv, hpos⟩
      · rintro (hq | ⟨hm | hm, hne, hcv, hpos⟩)
        · exact Or.inl hq
        · exact absurd hm (by simp)
        · exact Or.inr ⟨hm, hne, hcv, hpos⟩
    | vbool bb =>
      rw [show brandStep norm acc (JsVal.vbool bb) = acc from rfl]
      rw [ih acc Q hQ hQv b c]
      simp only [List.mem_cons]
      constructor
      · rintro (hq | ⟨hm, hne, hcv, hpos⟩)
        · exact Or.inl hq
        · exact Or.inr ⟨Or.inr hm, hne, hcv, hpos⟩
      · rintro (hq | ⟨hm | hm, hne, hcv, hpos⟩)
        · exact Or.inl hq
        · exact absurd hm (by simp)
        · exact Or.inr ⟨hm, hne, hcv, hpos⟩

theorem brandMain_mem (bs : List JsVal) (resp : String) (b : String) (c : Nat) :
    ((b, c) ∈ (brandMain bs resp).matchesMap
      ↔ (JsVal.vstr b ∈ bs ∧ b ≠ ""
          ∧ c = jsCountMatches (createBrandPattern b) (normalizeText resp).data
          ∧ 1 ≤ c)) := by
  have h := brandFold_mem (normalizeText resp) bs emptyBrandResult
    (fun _ _ => False) (by simp [emptyBrandResult]) (by simp) b c
  simpa [brandMain] using h

theorem countBrandMatches_nil (resp : JsVal) :
    countBrandMatches (JsVal.varr []) resp = emptyBrandResult := by
  cases resp with
  | vstr s =>
    by_cases hs : s = "" <;> simp [countBrandMatches, hs]
  | varr l => rfl
  | vnull => rfl
  | vnum n => rfl
  | vbool bb => rfl

/-- C6 counterexample: with a matching brand and the LLM replying the
single character `"0"`, the code returns 50 (because
`parseInt("0") || 50` treats the parsed 0 as falsy), while the claim's
parse — first integer, clamped to `[0, 100]`, 50 only when nothing
parses — yields 0. -/
theorem analyzeSentiment_zero_reply_counterexample :
    (analyzeSentiment "Acme is awful" ["Acme"] (some "0")).2 = 50
    ∧ specSentimentScore "0" = 0 := by
  decide

/-- C6 amended: `analyzeSentiment` issues the one LLM completion
(temperature 0.1, max 3 output tokens) only when some brand matches the
answer text, returning 0 without a request otherwise; the reply is
converted by deleting every non-digit character and parsing the
remaining digit string, and the score is the default 50 when there are
no digits or when the digits parse to 0, otherwise the parsed value
clamped to `[0, 100]`. -/
theorem analyzeSentiment_amended (response : String) (brands : List String)
    (llm : Option String) :
    ((countBrandMatches (JsVal.varr (brands.map JsVal.vstr))
        (JsVal.vstr response)).anyMatch = false →
      analyzeSentiment response brands llm = (none, 0))
    ∧ ((countBrandMatches (JsVal.varr (brands.map JsVal.vstr))
        (JsVal.vstr response)).anyMatch = true →
      jsTrim response ≠ "" →
        analyzeSentiment response brands llm
          = (some { temperature := 1/10, maxTokens := 3 },
             match jsParseIntDigits (stripNonDigits (sentimentContent llm)) with
             | none => 50
             | some 0 => 50
             | some k => min 100 k)) := by
  constructor
  · intro h
    unfold analyzeSentiment
    by_cases hb : brands = []
    · simp [hb]
    · by_cases hr : jsTrim response = ""
      · simp [hb, hr]
      · simp [hb, hr, h]
  · intro h htrim
    have hb : brands ≠ [] := by
      intro hb0
      rw [hb0] at h
      rw [show List.map JsVal.vstr [] = ([] : List JsVal) from rfl,
        countBrandMatches_nil] at h
      simp [emptyBrandResult] at h
    unfold analyzeSentiment
    rw [if_neg (by
      rintro (hb0 | hr0)
      · exact hb hb0
      · exact htrim hr0)]
    rw [if_neg (by simp [h])]
    rcases hp : jsParseIntDigits (stripNonDigits (sentimentContent llm)) with _ | k
    · simp
    · cases k with
      | zero => simp
      | succ k => simp

theorem analyzeSentiment_amended_witness :
    analyzeSentiment "Acme rocks" ["Acme"] (some "93")
      = (some { temperature := 1/10, maxTokens := 3 },
         match jsParseIntDigits (stripNonDigits (sentimentContent (some "93"))) with
         | none => 50
         | some 0 => 50
         | some k => min 100 k) :=
  (analyzeSentiment_amended "Acme rocks" ["Acme"] (some "93")).2
    (by decide) (by decide)

/-- C10: `countBrandMatches` is total over the dynamic input shapes and
internally coherent: a single string behaves as a one-element array; a
non-string response, a missing brands argument, or an empty brand array
yields the zero result; `anyMatch` holds exactly when
`totalMatches ≥ 1`; every entry of the matches map has a positive
count; and for an array of brands over a non-empty string response the
matches map holds exactly the (string, non-empty) brands whose
pattern-match count in the normalized response is positive, with that
count as value. -/
theorem countBrandMatches_coherent :
    (∀ (b : String) (resp : JsVal),
        countBrandMatches (JsVal.vstr b) resp
          = countBrandMatches (JsVal.varr [JsVal.vstr b]) resp)
    ∧ (∀ (brands resp : JsVal), (∀ s, resp ≠ JsVal.vstr s) →
        countBrandMatches brands resp = emptyBrandResult)
    ∧ (∀ resp, countBrandMatches JsVal.vnull resp = emptyBrandResult)
    ∧ (∀ resp, countBrandMatches (JsVal.varr []) resp = emptyBrandResult)
    ∧ (∀ brands resp,
        ((countBrandMatches brands resp).anyMatch = true
          ↔ 1 ≤ (countBrandMatches brands resp).totalMatches))
    ∧ (∀ brands resp, ∀ p ∈ (countBrandMatches brands resp).matchesMap, 1 ≤ p.2)
    ∧ (∀ (bs : List JsVal) (resp : String), resp ≠ "" →
        ∀ (b : String) (c : Nat),
          ((b, c) ∈ (countBrandMatches (JsVal.varr bs) (JsVal.vstr resp)).matchesMap
            ↔ (JsVal.vstr b ∈ bs ∧ b ≠ ""
                ∧ c = jsCountMatches (createBrandPattern b) (normalizeText resp).data
                ∧ 1 ≤ c))) := by
  have hmain_any : ∀ (bs : List JsVal) (resp : String),
      ((brandMain bs resp).anyMatch = true ↔ 1 ≤ (brandMain bs resp).totalMatches) := by
    intro bs resp
    exact brandFold_any_iff (normalizeText resp) bs emptyBrandResult
      (by simp [emptyBrandResult])
  refine ⟨?_, ?_, ?_, ?_, ?_, ?_, ?_⟩
  · intro b resp
    cases resp with
    | vstr r =>
      by_cases hr : r = ""
      · simp [countBrandMatches, hr]
      · by_cases hb : b = ""
        · simp [countBrandMatches, hr, hb, brandMain, brandStep]
        · simp [countBrandMatches, hr, hb]
    | varr l => rfl
    | vnull => rfl
    | vnum n => rfl
    | vbool bb => rfl
  · intro brands resp hns
    cases resp with
    | vstr s => exact absurd rfl (hns s)
    | varr l => rfl
    | vnull => rfl
    | vnum n => rfl
    | vbool bb => rfl
  · intro resp
    cases resp with
    | vstr s => by_cases hs : s = "" <;> simp [countBrandMatches, hs]
    | varr l => rfl
    | vnull => rfl
    | vnum n => rfl
    | vbool bb => rfl
  · exact countBrandMatches_nil
  · intro brands resp
    cases resp with
    | vstr s =>
      by_cases hs : s = ""
      · simp [countBrandMatches, hs, emptyBrandResult]
      · cases brands with
        | vstr b =>
          by_cases hb : b = ""
          · simp [countBrandMatches, hs, hb, emptyBrandResult]
          · simpa [countBrandMatches, hs, hb] using hmain_any [JsVal.vstr b] s
        | varr bs =>
          by_cases hlen : bs.length = 0
          · simp [countBrandMatches, hs, hlen, emptyBrandResult]
          · simpa [countBrandMatches, hs, hlen] using hmain_any bs s
        | vnull => simp [countBrandMatches, hs, emptyBrandResult]
        | vnum n => simp [countBrandMatches, hs, emptyBrandResult]
        | vbool bb => simp [countBrandMatches, hs, emptyBrandResult]
    | varr l => simp [countBrandMatches, emptyBrandResult]
    | vnull => simp [countBrandMatches, emptyBrandResult]
    | vnum n => simp [countBrandMatches, emptyBrandResult]
    | vbool bb => simp [countBrandMatches, emptyBrandResult]
  · intro brands resp p hp
    have hmain_pos : ∀ (bs : List JsVal) (s : String),
        p ∈ (brandMain bs s).matchesMap → 1 ≤ p.2 := by
      intro bs s hmem
      obtain ⟨b, c⟩ := p
      exact ((brandMain_mem bs s b c).mp hmem).2.2.2
    cases resp with
    | vstr s =>
      by_cases hs : s = ""
      · simp [countBrandMatches, hs, emptyBrandResult] at hp
      · cases brands with
        | vstr b =>
          by_cases hb : b = ""
          · simp [countBrandMatches, hs, hb, emptyBrandResult] at hp
          · exact hmain_pos [JsVal.vstr b] s (by
              simpa [countBrandMatches, hs, hb] using hp)
        | varr bs =>
          by_cases hlen : bs.length = 0
          · simp [countBrandMatches, hs, hlen, emptyBrandResult] at hp
          · exact hmain_pos bs s (by simpa [countBrandMatches, hs, hlen] using hp)
        | vnull => simp [countBrandMatches, hs, emptyBrandResult] at hp
        | vnum n => simp [countBrandMatches, hs, emptyBrandResult] at hp
        | vbool bb => simp [countBrandMatches, hs, emptyBrandResult] at hp
    | varr l => simp [countBrandMatches, emptyBrandResult] at hp
    | vnull => simp [countBrandMatches, emptyBrandResult] at hp
    | vnum n => simp [countBrandMatches, emptyBrandResult] at hp
    | vbool bb => simp [countBrandMatches, emptyBrandResult] at hp
  · intro bs resp hresp b c
    by_cases hlen : bs.length = 0
    · rw [List.length_eq_zero] at hlen
      subst hlen
      simp [countBrandMatches, hresp, emptyBrandResult]
    · rw [show countBrandMatches (JsVal.varr bs) (JsVal.vstr resp)
          = brandMain bs resp from by simp [countBrandMatches, hresp, hlen]]
      exact brandMain_mem bs resp b c

theorem countBrandMatches_coherent_witness :
    1 ≤ (countBrandMatches (JsVal.varr [JsVal.vstr "Acme"])
        (JsVal.vstr "We love Acme and Acme loves us")).totalMatches :=
  (countBrandMatches_coherent.2.2.2.2.1
      (JsVal.varr [JsVal.vstr "Acme"])
      (JsVal.vstr "We love Acme and Acme loves us")).mp (by decide)

theorem foldl_addDistinct_length (l : List String) :
    ∀ acc : List String, (l.foldl addDistinct acc).length ≤ acc.length + l.length := by
  induction l with
  | nil => intro acc; simp
  | cons x xs ih =>
    intro acc
    have hstep : (addDistinct acc x).length ≤ acc.length + 1 := by
      unfold addDistinct
      split <;> simp
    calc (List.foldl addDistinct (addDistinct acc x) xs).length
        ≤ (addDistinct acc x).length + xs.length := ih _
      _ ≤ acc.length + 1 + xs.length := by omega
      _ = acc.length + (x :: xs).length := by simp; omega

theorem dedupList_length_le (l : List String) : (dedupList l).length ≤ l.length := by
  simpa using foldl_addDistinct_length l []

theorem specDistinct_le_hostnames (input : AnalyzerInput) :
    specDistinctDomainCount input ≤ (lcpHostnames input).length := by
  unfold specDistinctDomainCount
  calc (dedupList ((lcpHostnames input).map stripWww)).length
      ≤ ((lcpHostnames input).map stripWww).length := dedupList_length_le _
    _ = (lcpHostnames input).length := List.length_map _ _

/-- C8 counterexample: two citations whose URLs differ only by a
leading `www.` count as two distinct hostnames for `calculateLCPScore`
(the code uses `new URL(u).hostname` without stripping `www.`), scoring
16, while the claim's `www.`-stripped distinct-domain count is 1 and
its formula predicts 8. -/
theorem lcp_www_counterexample :
    (calculateLCPScore 0 (AnalyzerInput.brightdata
      { links_attached := none
        citations := some [{ url := some "https://www.example.com/a" },
                           { url := some "https://example.com/b" }]
        answer_text_markdown := none
        shopping_visible := false
        shopping := none
        is_map := false })).score = 16
    ∧ specDistinctDomainCount (AnalyzerInput.brightdata
      { links_attached := none
        citations := some [{ url := some "https://www.example.com/a" },
                           { url := some "https://example.com/b" }]
        answer_text_markdown := none
        shopping_visible := false
        shopping := none
        is_map := false }) = 1 := by
  decide

/-- C8 amended: the LCP score is
`min(distinct hostnames, 8) × 8 + 10·fresh + 10·(≥2 item types)
+ 6·navigation list`, where hostnames keep any leading `www.`; the
clamp to `[0, 100]` never binds (the score is at most 90); a hostname
count ≤ 8 gives a score of at least 8 × that count, and since the
claim's `www.`-stripped distinct-domain count never exceeds the
hostname count, the claim's consequence `count ≤ 8 ⇒ lcp ≥ 8 × count`
still holds for it; with 9 or more distinct domains and no bonuses the
score is exactly 64. -/
theorem lcp_score_amended (now : Int) (input : AnalyzerInput) :
    ((calculateLCPScore now input).score
      = min (lcpHostnames input).length 8 * 8
        + (if hasFreshContent (lcpFreshSources input) now then 10 else 0)
        + (if 2 ≤ (dedupList (lcpItemTypes input)).length then 10 else 0)
        + (if (lcpItemTypes input).contains "chat_gpt_navigation_list" then 6 else 0))
    ∧ (calculateLCPScore now input).score ≤ 100
    ∧ ((lcpHostnames input).length ≤ 8 →
        8 * (lcpHostnames input).length ≤ (calculateLCPScore now input).score)
    ∧ (specDistinctDomainCount input ≤ 8 →
        8 * specDistinctDomainCount input ≤ (calculateLCPScore now input).score)
    ∧ (9 ≤ specDistinctDomainCount input →
        hasFreshContent (lcpFreshSources input) now = false →
        (dedupList (lcpItemTypes input)).length < 2 →
        (lcpItemTypes input).contains "chat_gpt_navigation_list" = false →
        (calculateLCPScore now input).score = 64) := by
  have hspec := specDistinct_le_hostnames input
  simp only [calculateLCPScore]
  refine ⟨?_, ?_, ?_, ?_, ?_⟩
  · split_ifs <;> omega
  · split_ifs <;> omega
  · intro h
    split_ifs <;> omega
  · intro h
    split_ifs <;> omega
  · intro h9 hf ht hn
    rw [hf, hn]
    simp only [Bool.false_eq_true, if_false]
    split_ifs <;> omega

theorem lcp_score_amended_witness :
    8 * specDistinctDomainCount (AnalyzerInput.dataforseo (some
      { sources := some [{ url := some "https://a.org/x", date_published := none }]
        search_results := none
        item_types := none
        items := none
        text := none }))
      ≤ (calculateLCPScore 0 (AnalyzerInput.dataforseo (some
      { sources := some [{ url := some "https://a.org/x", date_published := none }]
        search_results := none
        item_types := none
        items := none
        text := none }))).score :=
  (lcp_score_amended 0 (AnalyzerInput.dataforseo (some
      { sources := some [{ url := some "https://a.org/x", date_published := none }]
        search_results := none
        item_types := none
        items := none
        text := none }))).2.2.2.1 (by decide)

theorem orderedInsert_headD (x : Nat) (s : List Nat) :
    ((s.orderedInsert (· ≥ ·) x).headD 0) = max x (s.headD 0) := by
  cases s with
  | nil => simp [List.orderedInsert]
  | cons y ys =>
    by_cases h : x ≥ y
    · simp only [List.orderedInsert, if_pos h, List.headD_cons]
      omega
    · simp only [List.orderedInsert, if_neg h, List.headD_cons]
      omega

theorem sortDesc_headD (l : List Nat) : (sortDesc l).headD 0 = natMaxList l := by
  induction l with
  | nil => rfl
  | cons x xs ih =>
    show ((List.insertionSort (· ≥ ·) xs).orderedInsert (· ≥ ·) x).headD 0 = _
    rw [orderedInsert_headD]
    rw [show (List.insertionSort (· ≥ ·) xs).headD 0 = natMaxList xs from ih]
    rfl

theorem natMaxList_perm {l1 l2 : List Nat} (h : l1.Perm l2) :
    natMaxList l1 = natMaxList l2 := by
  induction h with
  | nil => rfl
  | cons x _ ih => simp only [natMaxList, ih]
  | swap x y l =>
    simp only [natMaxList]
    omega
  | trans _ _ ih1 ih2 => exact ih1.trans ih2

theorem natMaxList_le_of_forall {x : Nat} {t : List Nat} (h : ∀ y ∈ t, y ≤ x) :
    natMaxList t ≤ x := by
  induction t with
  | nil => simp [natMaxList]
  | cons y ys ih =>
    simp only [natMaxList]
    have h1 : y ≤ x := h y (by simp)
    have h2 : natMaxList ys ≤ x := ih (fun z hz => h z (by simp [hz]))
    omega

theorem sorted_natMaxList {s : List Nat} (h : List.Sorted (· ≥ ·) s) :
    natMaxList s = s.headD 0 := by
  cases s with
  | nil => rfl
  | cons x t =>
    have hall := (List.sorted_cons.mp h).1
    have hle : natMaxList t ≤ x := natMaxList_le_of_forall hall
    simp only [natMaxList, List.headD_cons]
    omega

theorem sortDesc_tail_headD (l : List Nat) :
    (sortDesc l).tail.headD 0 = natMaxList (l.erase (natMaxList l)) := by
  have hp : (sortDesc l).Perm l := List.perm_insertionSort (· ≥ ·) l
  have hso : List.Sorted (· ≥ ·) (sortDesc l) := List.sorted_insertionSort (· ≥ ·) l
  rcases hs : sortDesc l with _ | ⟨h, t⟩
  · have hnil : l = [] := (hs ▸ hp).symm.eq_nil
    subst hnil
    rfl
  · have hperm : l.Perm (h :: t) := (hs ▸ hp).symm
    have hsort : List.Sorted (· ≥ ·) (h :: t) := hs ▸ hso
    have htsort : List.Sorted (· ≥ ·) t := (List.sorted_cons.mp hsort).2
    have hmax : natMaxList l = h := by
      rw [natMaxList_perm hperm]
      rw [sorted_natMaxList hsort]
      rfl
    have herase : (l.erase (natMaxList l)).Perm t := by
      rw [hmax]
      have := hperm.erase h
      simpa [List.erase_cons_head] using this
    rw [natMaxList_perm herase]
    rw [sorted_natMaxList htsort]
    rfl

theorem maxScore_eq_natMaxList (s : IntentScores) :
    maxScore s = natMaxList (scoresList s) := by
  simp only [maxScore, scoresList, natMaxList]
  omega

theorem intentScores_informational_ge (input : AnalyzerInput) :
    20 ≤ (intentScores input).informational := by
  simp only [intentScores]
  omega

theorem maxScore_intent_pos (input : AnalyzerInput) :
    0 < maxScore (intentScores input) := by
  have h := intentScores_informational_ge input
  simp only [maxScore]
  omega

theorem pickPrimary_argmax (s : IntentScores) :
    scoreOf s (pickPrimary s) = maxScore s
    ∧ ∀ c ∈ categoryOrder, scoreOf s c = maxScore s →
        categoryIndex (pickPrimary s) ≤ categoryIndex c := by
  unfold pickPrimary
  split_ifs with h1 h2 h3 h4
  · refine ⟨by simpa [scoreOf] using h1, ?_⟩
    intro c hc _
    simp only [categoryIndex, if_pos rfl]
    exact Nat.zero_le _
  · refine ⟨by simpa [scoreOf] using h2, ?_⟩
    intro c hc hsc
    fin_cases hc
    · exact absurd (by simpa [scoreOf] using hsc) h1
    · simp [categoryIndex]
    · simp [categoryIndex]
    · simp [categoryIndex]
    · simp [categoryIndex]
  · refine ⟨by simpa [scoreOf] using h3, ?_⟩
    intro c hc hsc
    fin_cases hc
    · exact absurd (by simpa [scoreOf] using hsc) h1
    · exact absurd (by simpa [scoreOf] using hsc) h2
    · simp [categoryIndex]
    · simp [categoryIndex]
    · simp [categoryIndex]
  · refine ⟨by simpa [scoreOf] using h4, ?_⟩
    intro c hc hsc
    fin_cases hc
    · exact absurd (by simpa [scoreOf] using hsc) h1
    · exact absurd (by simpa [scoreOf] using hsc) h2
    · exact absurd (by simpa [scoreOf] using hsc) h3
    · simp [categoryIndex]
    · simp [categoryIndex]
  · have hinf : s.informational = maxScore s := by
      simp only [maxScore] at h1 h2 h3 h4 ⊢
      omega
    refine ⟨by simpa [scoreOf] using hinf, ?_⟩
    intro c hc hsc
    fin_cases hc
    · exact absurd (by simpa [scoreOf] using hsc) h1
    · exact absurd (by simpa [scoreOf] using hsc) h2
    · exact absurd (by simpa [scoreOf] using hsc) h3
    · exact absurd (by simpa [scoreOf] using hsc) h4
    · simp [categoryIndex]

set_option maxHeartbeats 2000000 in
/-- C7 counterexample: for a DataForSEO result whose text is
`"how map"` the scores are informational 22 (baseline 20 plus the
keyword `how`), local 4 (keyword `map`), rest 0; the code's confidence
is `Math.round((18/22)·100) = 82`, while the claim's
`⌊(top − second)/top × 100⌋` is 81. -/
theorem intent_confidence_round_counterexample :
    (calculateIntentClassification (AnalyzerInput.dataforseo (some
      { sources := none, search_results := none, item_types := none,
        items := none, text := some "how map" }))).confidence = 82
    ∧ specConfidenceFloor (intentScores (AnalyzerInput.dataforseo (some
      { sources := none, search_results := none, item_types := none,
        items := none, text := some "how map" }))) = 81 := by
  decide

/-- C7 amended: the primary intent attains the maximum of the five
category scores and, among the categories attaining it, is the earliest
in the order commercial, transactional, local, navigational,
informational; the informational score always carries its +20 baseline,
so the top score is positive; and the confidence is
`Math.round((top − second) / top × 100)` — rounded, not floored — where
`second` is the second-largest score (the `Math.min(·, 100)` cap
kept from the source is never exceeded anyway). -/
theorem intent_classification_amended (input : AnalyzerInput) :
    (scoreOf (intentScores input) ((calculateIntentClassification input).primaryIntent)
        = maxScore (intentScores input))
    ∧ (∀ c ∈ categoryOrder,
        scoreOf (intentScores input) c = maxScore (intentScores input) →
        categoryIndex ((calculateIntentClassification input).primaryIntent)
          ≤ categoryIndex c)
    ∧ 20 ≤ (intentScores input).informational
    ∧ 0 < maxScore (intentScores input)
    ∧ (calculateIntentClassification input).confidence
        = jsRoundHalfUp
            (min ((maxScore (intentScores input)
                  - natMaxList ((scoresList (intentScores input)).erase
                      (maxScore (intentScores input)))) * 100)
              (100 * maxScore (intentScores input)))
            (maxScore (intentScores input)) := by
  refine ⟨(pickPrimary_argmax (intentScores input)).1,
    (pickPrimary_argmax (intentScores input)).2,
    intentScores_informational_ge input,
    maxScore_intent_pos input, ?_⟩
  simp only [calculateIntentClassification]
  unfold intentConfidence
  rw [sortDesc_headD, sortDesc_tail_headD, ← maxScore_eq_natMaxList]
  rw [if_pos (maxScore_intent_pos input)]

set_option maxHeartbeats 2000000 in
theorem intent_classification_amended_witness :
    categoryIndex ((calculateIntentClassification (AnalyzerInput.dataforseo (some
      { sources := none, search_results := none, item_types := none,
        items := none, text := some "review rating best top price cost vs" }))).primaryIntent)
      ≤ categoryIndex "commercial" :=
  (intent_classification_amended (AnalyzerInput.dataforseo (some
      { sources := none, search_results := none, item_types := none,
        items := none, text := some "review rating best top price cost vs" }))).2.1
    "commercial" (by decide) (by decide)

/-- C9: `sanitizeText` is not idempotent, although the spec requires
`sanitize(sanitize(x)) == sanitize(x)`.  On `"..b"` step 11 inserts a
space after the first period only (the scan resumes past the two
consumed characters), giving `". .b"`; a second pass then matches the
second period and yields `". . b"`. -/
theorem sanitizeText_not_idempotent :
    sanitizeText "..b" = ". .b"
    ∧ sanitizeText (sanitizeText "..b") = ". . b"
    ∧ sanitizeText (sanitizeText "..b") ≠ sanitizeText "..b" := by
  decide
